import Mathlib

set_option maxHeartbeats 1600000
set_option maxRecDepth 8192
set_option linter.unusedVariables false

/-!
Verification development for `scripts/unified_parser.py` of the
Proxmox-OpenAPI repository.

The Python program recovers a JavaScript `apiSchema` array literal from a
documentation file, normalizes it to JSON through a chain of fallback
parsers, flattens the recovered tree into endpoint descriptors, and
synthesizes an OpenAPI document.  This file gives a shallow embedding of
the relevant functions, translated directly from the source, and proves
or refutes the specification claims about them.

Conventions of the embedding:
* Python `dict`s of decoded JSON data are association lists
  `List (String × JValue)`; assignment is `assocSet` (replace in place,
  keeping insertion order, append when fresh), which is exactly the
  observable behaviour of CPython dict assignment.
* JSON numbers are kept as their source tokens (`JValue.num tok`); no
  claim depends on floating-point arithmetic.
* Python functions that can raise are embedded in `Except String`; a
  `try/except` that swallows the error is embedded by the corresponding
  total branch.
* Regular-expression helpers of the source (`re.sub`, `findall`, `search`)
  are embedded as explicit character-list scanners implementing exactly
  the concrete patterns that appear in the source, which contain no
  backtracking beyond first-match-of-a-character-class.
-/

/-- Decoded JSON/JavaScript value, the result type of Python `json.loads`.
Numbers keep their literal token text. -/
inductive JValue where
  | null : JValue
  | bool (b : Bool) : JValue
  | num (tok : String) : JValue
  | str (s : String) : JValue
  | arr (xs : List JValue) : JValue
  | obj (kvs : List (String × JValue)) : JValue

/-! ## `extract_api_schema`, bracket-counted span scanning (lines 85-107) -/

/-- Contribution of one character to the running bracket count of the
`for i, char in enumerate(content[start_pos:], start_pos)` loop. -/
def bDelta (c : Char) : Int :=
  if c = '[' then 1 else if c = ']' then -1 else 0

/-- Running bracket count over a character list (sum of `bDelta`). -/
def bracketBal : List Char → Int
  | [] => 0
  | c :: l => bDelta c + bracketBal l

/-- The scanning loop of `extract_api_schema` (lines 92-105): starting at
the anchor with `bracket_count = count`, returns the number of characters
up to and including the `]` at which the count first returns to zero via a
decrement, i.e. `end_pos - start_pos`.  `none` models the
`bracket_count != 0` error path. -/
def scanLen : List Char → Int → Option Nat
  | [], _ => none
  | c :: rest, count =>
    if c = '[' then
      match scanLen rest (count + 1) with
      | some k => some (k + 1)
      | none => none
    else if c = ']' then
      if count - 1 = 0 then some 1
      else
        match scanLen rest (count - 1) with
        | some k => some (k + 1)
        | none => none
    else
      match scanLen rest count with
      | some k => some (k + 1)
      | none => none

/-- Python `\s` character class (whitespace). -/
def pyWs (c : Char) : Bool :=
  c == ' ' || c == '\t' || c == '\n' || c == '\r' ||
  c == Char.ofNat 11 || c == Char.ofNat 12

/-- Match a literal character list at the head of the input, returning the
remainder on success. -/
def matchLit : List Char → List Char → Option (List Char)
  | [], hay => some hay
  | _ :: _, [] => none
  | n :: ns, h :: hs => if n = h then matchLit ns hs else none

/-- One attempt of the anchor regular expression
`(var|const|let)\s+apiSchema\s*=\s*\[` at the current position
(`_API_SCHEMA_PATTERN`, line 50).  On success returns the suffix of the
input starting at the opening `[` (Python's `start_match.end() - 1`,
line 89). -/
def matchAnchorAt (cs : List Char) : Option (List Char) :=
  let kw :=
    match matchLit "var".toList cs with
    | some r => some r
    | none =>
      match matchLit "const".toList cs with
      | some r => some r
      | none => matchLit "let".toList cs
  match kw with
  | none => none
  | some r1 =>
    let w1 := r1.takeWhile pyWs
    if w1.isEmpty then none
    else
      match matchLit "apiSchema".toList (r1.drop w1.length) with
      | none => none
      | some r2 =>
        match r2.dropWhile pyWs with
        | '=' :: r4 =>
          match r4.dropWhile pyWs with
          | '[' :: r5 => some ('[' :: r5)
          | _ => none
        | _ => none

/-- `re.search` of the anchor pattern: the leftmost position at which the
anchor matches, returned as the suffix of the content starting at the
anchor's opening `[`. -/
def findAnchorTail : List Char → Option (List Char)
  | [] => none
  | c :: rest =>
    match matchAnchorAt (c :: rest) with
    | some t => some t
    | none => findAnchorTail rest

/-- The span-extraction part of `extract_api_schema` (lines 85-107):
locate the anchor, bracket-scan for the matching `]`, and slice
`content[start_pos:end_pos]`.  The two `.error` branches are the
`ValueError` raises of lines 87 and 105. -/
def extract_api_schema_span (content : List Char) : Except String (List Char) :=
  match findAnchorTail content with
  | none => .error "Could not find apiSchema start"
  | some t =>
    match scanLen t 0 with
    | none => .error "Could not find apiSchema end"
    | some n => .ok (t.take n)

/-! ## Python dict and truthiness helpers -/

/-- Python dict assignment `d[k] = v` on an insertion-ordered association
list: replace in place if the key exists, else append. -/
def assocSet : List (String × JValue) → String → JValue → List (String × JValue)
  | [], k, v => [(k, v)]
  | (k', v') :: rest, k, v =>
    if k' = k then (k, v) :: rest else (k', v') :: assocSet rest k v

/-- Python dict lookup / `in` test. -/
def lookupKV : List (String × JValue) → String → Option JValue
  | [], _ => none
  | (k', v') :: rest, k => if k' = k then some v' else lookupKV rest k

/-- Python `dict.update(other)`: assign every pair of `other` in order. -/
def dictUpdate (base other : List (String × JValue)) : List (String × JValue) :=
  other.foldl (fun acc kv => assocSet acc kv.1 kv.2) base

/-- Whether a JSON number token denotes zero (every mantissa digit is `0`),
for Python numeric truthiness. -/
def numTokenIsZero (tok : String) : Bool :=
  !((tok.toList.takeWhile (fun c => !(c == 'e' || c == 'E'))).any
      (fun c => decide ('1' ≤ c) && decide (c ≤ '9')))

/-- Python truthiness of a decoded JSON value. -/
def pyTruthy : JValue → Bool
  | .null => false
  | .bool b => b
  | .num t => !numTokenIsZero t
  | .str s => !(s.isEmpty)
  | .arr xs => !xs.isEmpty
  | .obj kvs => !kvs.isEmpty

/-- Python `isinstance(v, dict)`. -/
def JValue.isObj : JValue → Bool
  | .obj _ => true
  | _ => false

/-! ## `_parse_with_python_fallback`: regex-literal placeholders (lines 141-154) -/

/-- Decimal rendering of a natural number (the text of Python's
`f"{pattern_counter}"`). -/
def natDecGo : Nat → Nat → List Char
  | 0, _ => []
  | fuel + 1, n =>
    if n < 10 then [Char.ofNat (48 + n)]
    else natDecGo fuel (n / 10) ++ [Char.ofNat (48 + n % 10)]

def natDec (n : Nat) : List Char := natDecGo (n + 1) n

/-- The placeholder text `"__REGEX_PATTERN_{k}__"` (with the surrounding
double quotes, as in line 148). -/
def phText (k : Nat) : List Char :=
  "\"__REGEX_PATTERN_".toList ++ natDec k ++ "__\"".toList

/-- One attempt of the regex `"/[^"]*/"` (`_REGEX_PATTERN`, line 51) at the
current position: a double quote, a slash, a greedy run of non-quote
characters whose last character is a slash, and a closing double quote.
Returns the length of the whole match (at least 4: quote, slash,
nonempty run ending in a slash, quote). -/
def regexLitLen : List Char → Option Nat
  | '"' :: '/' :: rest =>
    match rest.drop (rest.takeWhile (fun c => !(c == '"'))).length with
    | '"' :: _ =>
      if rest.takeWhile (fun c => !(c == '"')) ≠ [] ∧
          (rest.takeWhile (fun c => !(c == '"'))).getLast? = some '/' then
        some ((rest.takeWhile (fun c => !(c == '"'))).length + 3)
      else none
    | _ => none
  | _ => none

/-- `re.sub(_REGEX_PATTERN, replace_regex, schema_str)` together with the
`regex_patterns` list built by `replace_regex` (lines 145-154): scan left to
right; each match is replaced by a fresh placeholder and the pair
(placeholder, original matched text) is recorded in order.  The
`some 0` branch is unreachable (`regexLitLen` only returns lengths ≥ 4)
and is given the no-match behaviour. -/
def replaceRegexGo : Nat → List Char → Nat → List Char × List (List Char × List Char)
  | 0, _, _ => ([], [])
  | _ + 1, [], _ => ([], [])
  | fuel + 1, c :: cs, k =>
    match regexLitLen (c :: cs) with
    | some (L + 1) =>
      let m := (c :: cs).take (L + 1)
      let res := replaceRegexGo fuel ((c :: cs).drop (L + 1)) (k + 1)
      (phText k ++ res.1, (phText k, m) :: res.2)
    | some 0 =>
      let res := replaceRegexGo fuel cs k
      (c :: res.1, res.2)
    | none =>
      let res := replaceRegexGo fuel cs k
      (c :: res.1, res.2)

def replaceRegexAll (cs : List Char) (k : Nat) : List Char × List (List Char × List Char) :=
  replaceRegexGo (cs.length + 1) cs k

/-! ## `_parse_with_python_fallback`: JavaScript-to-JSON rewrites (lines 157-163) -/

/-- Generic left-to-right non-overlapping `re.sub` engine: `f` attempts a
match at the current position and returns (matched length, replacement
text).  On a match, scanning resumes after the matched text; otherwise one
character is kept and scanning advances.  The `some (0, _)` branch is
unreachable for every matcher used (all return lengths ≥ 1) and is given
the no-match behaviour. -/
def subAllGo (f : List Char → Option (Nat × List Char)) : Nat → List Char → List Char
  | 0, cs => cs
  | _ + 1, [] => []
  | fuel + 1, c :: cs =>
    match f (c :: cs) with
    | some (L + 1, rep) => rep ++ subAllGo f fuel ((c :: cs).drop (L + 1))
    | some (0, _) => c :: subAllGo f fuel cs
    | none => c :: subAllGo f fuel cs

def subAll (f : List Char → Option (Nat × List Char)) (cs : List Char) : List Char :=
  subAllGo f (cs.length + 1) cs

/-- Generic `re.findall` engine returning the captures, with the same
scanning discipline as `subAll`. -/
def findAllCapsGo (f : List Char → Option (Nat × List Char)) : Nat → List Char → List (List Char)
  | 0, _ => []
  | _ + 1, [] => []
  | fuel + 1, c :: cs =>
    match f (c :: cs) with
    | some (L + 1, cap) => cap :: findAllCapsGo f fuel ((c :: cs).drop (L + 1))
    | some (0, _) => findAllCapsGo f fuel cs
    | none => findAllCapsGo f fuel cs

def findAllCaps (f : List Char → Option (Nat × List Char)) (cs : List Char) : List (List Char) :=
  findAllCapsGo f (cs.length + 1) cs

/-- The apostrophe character (written by code point to keep the embedding
free of quote-escaping noise). -/
def apos : Char := Char.ofNat 39

/-- Matcher for `_JS_SINGLE_QUOTE_KEY = r"'([^']*)':"` (line 52), replaced
by `"\1":`. -/
def keyQuoteMatch : List Char → Option (Nat × List Char)
  | c :: rest =>
    if c = apos then
      let mid := rest.takeWhile (fun x => !(x == apos))
      match rest.drop mid.length with
      | c2 :: ':' :: _ =>
        if c2 = apos then some (mid.length + 3, '"' :: mid ++ ['"', ':']) else none
      | _ => none
    else none
  | [] => none

/-- Matcher for `_JS_SINGLE_QUOTE_VALUE = r": '([^']*)'"` (line 53),
replaced by `: "\1"`. -/
def valueQuoteMatch : List Char → Option (Nat × List Char)
  | ':' :: ' ' :: c :: rest =>
    if c = apos then
      let mid := rest.takeWhile (fun x => !(x == apos))
      match rest.drop mid.length with
      | c2 :: _ =>
        if c2 = apos then some (mid.length + 4, ':' :: ' ' :: '"' :: mid ++ ['"']) else none
      | _ => none
    else none
  | _ => none

/-- `_JS_TRUE.sub("true", s)` (line 159) replaces every match of
`\btrue\b` with the identical text `true`; textually the identity. -/
def jsTrueSub (cs : List Char) : List Char := cs

/-- `_JS_FALSE.sub("false", s)` (line 160); textually the identity. -/
def jsFalseSub (cs : List Char) : List Char := cs

/-- `_JS_NULL.sub("null", s)` (line 161); textually the identity. -/
def jsNullSub (cs : List Char) : List Char := cs

/-- Matcher for `_JS_TRAILING_COMMA = r",(\s*[}\]])"` (line 57), replaced
by the captured group `\1`: drop a comma that is followed only by
whitespace and a closing brace or bracket. -/
def trailingCommaMatch : List Char → Option (Nat × List Char)
  | ',' :: rest =>
    let w := rest.takeWhile pyWs
    match rest.drop w.length with
    | c :: _ =>
      if c = '}' ∨ c = ']' then some (1 + w.length + 1, w ++ [c]) else none
    | [] => none
  | _ => none

/-- Python `\w` (ASCII model). -/
def isWordChar (c : Char) : Bool :=
  c.isAlpha || c.isDigit || c == '_'

/-- `_JS_UNDEFINED.sub("null", s)` (line 163): replace every `\bundefined\b`
by `null`.  `prevWord` records whether the previous original character was
a word character (false at the start of the string). -/
def undefinedSubGo : Nat → Bool → List Char → List Char
  | 0, _, cs => cs
  | fuel + 1, prevWord, 'u' :: 'n' :: 'd' :: 'e' :: 'f' :: 'i' :: 'n' :: 'e' :: 'd' :: rest =>
    if prevWord = false ∧
        (match rest with | r :: _ => isWordChar r | [] => false) = false then
      'n' :: 'u' :: 'l' :: 'l' :: undefinedSubGo fuel true rest
    else
      'u' :: undefinedSubGo fuel true
        ('n' :: 'd' :: 'e' :: 'f' :: 'i' :: 'n' :: 'e' :: 'd' :: rest)
  | _ + 1, _, [] => []
  | fuel + 1, _, c :: rest => c :: undefinedSubGo fuel (isWordChar c) rest

def undefinedSub (cs : List Char) : List Char := undefinedSubGo (cs.length + 1) false cs

/-- The full rewrite chain of lines 157-163, applied to the text in which
regex literals have already been replaced by placeholders. -/
def normalizeJs (cs : List Char) : List Char :=
  undefinedSub (subAll trailingCommaMatch
    (jsNullSub (jsFalseSub (jsTrueSub
      (subAll valueQuoteMatch (subAll keyQuoteMatch cs))))))

/-! ## Strict JSON decoding, the model of `json.loads` (line 166) -/

/-- JSON whitespace accepted by the Python decoder. -/
def jWsChar (c : Char) : Bool :=
  c == ' ' || c == '\t' || c == '\n' || c == '\r'

def jSkipWs (l : List Char) : List Char := l.dropWhile jWsChar

def hexVal (c : Char) : Option Nat :=
  if c.isDigit then some (c.toNat - 48)
  else if 'a' ≤ c ∧ c ≤ 'f' then some (c.toNat - 87)
  else if 'A' ≤ c ∧ c ≤ 'F' then some (c.toNat - 70)
  else none

/-- JSON string body parser (after the opening quote): decodes escapes,
rejects raw control characters (strict mode) and invalid escapes.  Returns
the decoded characters and the input after the closing quote. -/
def parseJString : List Char → Option (List Char × List Char)
  | [] => none
  | '"' :: rest => some ([], rest)
  | '\\' :: rest =>
    match rest with
    | '"' :: r => (parseJString r).map (fun p => ('"' :: p.1, p.2))
    | '\\' :: r => (parseJString r).map (fun p => ('\\' :: p.1, p.2))
    | '/' :: r => (parseJString r).map (fun p => ('/' :: p.1, p.2))
    | 'b' :: r => (parseJString r).map (fun p => (Char.ofNat 8 :: p.1, p.2))
    | 'f' :: r => (parseJString r).map (fun p => (Char.ofNat 12 :: p.1, p.2))
    | 'n' :: r => (parseJString r).map (fun p => ('\n' :: p.1, p.2))
    | 'r' :: r => (parseJString r).map (fun p => ('\r' :: p.1, p.2))
    | 't' :: r => (parseJString r).map (fun p => ('\t' :: p.1, p.2))
    | 'u' :: a :: b :: c :: d :: r =>
      match hexVal a, hexVal b, hexVal c, hexVal d with
      | some ha, some hb, some hc, some hd =>
        (parseJString r).map
          (fun p => (Char.ofNat (4096 * ha + 256 * hb + 16 * hc + hd) :: p.1, p.2))
      | _, _, _, _ => none
    | _ => none
  | c :: rest =>
    if c.toNat < 32 then none
    else (parseJString rest).map (fun p => (c :: p.1, p.2))

/-- Optional fraction and exponent parts of a JSON number token; parts
without digits are not consumed, matching the optional groups of the
decoder's number grammar. -/
def parseFracExp (acc : List Char) (r : List Char) : List Char × List Char :=
  let fr : List Char × List Char :=
    match r with
    | '.' :: rr =>
      let ds := rr.takeWhile Char.isDigit
      if ds = [] then (acc, r) else (acc ++ '.' :: ds, rr.drop ds.length)
    | _ => (acc, r)
  match fr.2 with
  | e :: rr =>
    if e = 'e' ∨ e = 'E' then
      let se : List Char × List Char :=
        match rr with
        | '+' :: r3 => (['+'], r3)
        | '-' :: r3 => (['-'], r3)
        | _ => ([], rr)
      let ds := se.2.takeWhile Char.isDigit
      if ds = [] then (fr.1, fr.2)
      else (fr.1 ++ e :: (se.1 ++ ds), se.2.drop ds.length)
    else (fr.1, fr.2)
  | [] => (fr.1, fr.2)

/-- JSON number token parser: optional minus, integer part (`0` or a
nonzero digit followed by digits), optional fraction, optional exponent.
Returns the token text and the remaining input. -/
def parseNumTok (l : List Char) : Option (List Char × List Char) :=
  let sg : List Char × List Char :=
    match l with
    | '-' :: r => (['-'], r)
    | _ => ([], l)
  match sg.2 with
  | '0' :: r => some (parseFracExp (sg.1 ++ ['0']) r)
  | c :: r =>
    if c.isDigit ∧ ¬ c = '0' then
      let ds := r.takeWhile Char.isDigit
      some (parseFracExp (sg.1 ++ c :: ds) (r.drop ds.length))
    else none
  | [] => none

/-- Build a Python dict from decoded key/value pairs: sequential dict
assignment, so a duplicate key keeps its first position and the last
value. -/
def dictFromPairs (ps : List (String × JValue)) : List (String × JValue) :=
  ps.foldl (fun acc kv => assocSet acc kv.1 kv.2) []

mutual

/-- Strict JSON value parser (fuel-indexed; the fuel is a bound on the
recursion depth and call count, supplied generously at the top level). -/
def parseVal : Nat → List Char → Option (JValue × List Char)
  | 0, _ => none
  | fuel + 1, l =>
    match l with
    | 'n' :: 'u' :: 'l' :: 'l' :: r => some (.null, r)
    | 't' :: 'r' :: 'u' :: 'e' :: r => some (.bool true, r)
    | 'f' :: 'a' :: 'l' :: 's' :: 'e' :: r => some (.bool false, r)
    | '"' :: r =>
      match parseJString r with
      | some (s, r') => some (.str (String.mk s), r')
      | none => none
    | '[' :: r =>
      match jSkipWs r with
      | ']' :: r2 => some (.arr [], r2)
      | r1 =>
        match parseArrItems fuel r1 with
        | some (xs, r2) => some (.arr xs, r2)
        | none => none
    | '{' :: r =>
      match jSkipWs r with
      | '}' :: r2 => some (.obj [], r2)
      | r1 =>
        match parseObjItems fuel r1 with
        | some (ps, r2) => some (.obj (dictFromPairs ps), r2)
        | none => none
    | _ =>
      match parseNumTok l with
      | some (t, r) => some (.num (String.mk t), r)
      | none => none

def parseArrItems : Nat → List Char → Option (List JValue × List Char)
  | 0, _ => none
  | fuel + 1, l =>
    match parseVal fuel l with
    | none => none
    | some (v, r) =>
      match jSkipWs r with
      | ',' :: r2 =>
        match parseArrItems fuel (jSkipWs r2) with
        | some (xs, r3) => some (v :: xs, r3)
        | none => none
      | ']' :: r2 => some ([v], r2)
      | _ => none

def parseObjItems : Nat → List Char → Option (List (String × JValue) × List Char)
  | 0, _ => none
  | fuel + 1, l =>
    match l with
    | '"' :: r =>
      match parseJString r with
      | none => none
      | some (ks, r1) =>
        match jSkipWs r1 with
        | ':' :: r2 =>
          match parseVal fuel (jSkipWs r2) with
          | none => none
          | some (v, r3) =>
            match jSkipWs r3 with
            | ',' :: r4 =>
              match parseObjItems fuel (jSkipWs r4) with
              | some (ps, r5) => some ((String.mk ks, v) :: ps, r5)
              | none => none
            | '}' :: r4 => some ([(String.mk ks, v)], r4)
            | _ => none
        | _ => none
    | _ => none

end

/-- `json.loads`: parse one value, allowing surrounding whitespace and
rejecting trailing data.  `none` is the `json.JSONDecodeError` case. -/
def jsonParse (l : List Char) : Option JValue :=
  match parseVal (2 * l.length + 8) (jSkipWs l) with
  | some (v, r) => if jSkipWs r = [] then some v else none
  | none => none

/-! ## `_parse_with_python_fallback`: restoration and wrapping (lines 165-188) -/

/-- Python `str.strip(ch)`: remove every leading and trailing occurrence
of the character. -/
def pyStripChar (ch : Char) (s : List Char) : List Char :=
  ((s.dropWhile (fun c => c == ch)).reverse.dropWhile (fun c => c == ch)).reverse

mutual

/-- `restore_patterns` (lines 169-179): walk the decoded tree; a string
equal to a recorded placeholder stripped of its double quotes (first match
in recording order) is replaced by the original matched literal text. -/
def restorePatterns (pats : List (List Char × List Char)) : JValue → JValue
  | .obj kvs => .obj (restoreKvs pats kvs)
  | .arr xs => .arr (restoreList pats xs)
  | .str s =>
    match pats.find? (fun pr => String.mk (pyStripChar '"' pr.1) == s) with
    | some pr => .str (String.mk pr.2)
    | none => .str s
  | .null => .null
  | .bool b => .bool b
  | .num t => .num t

def restoreList (pats : List (List Char × List Char)) : List JValue → List JValue
  | [] => []
  | x :: xs => restorePatterns pats x :: restoreList pats xs

def restoreKvs (pats : List (List Char × List Char)) :
    List (String × JValue) → List (String × JValue)
  | [] => []
  | (k, v) :: kvs => (k, restorePatterns pats v) :: restoreKvs pats kvs

end

/-- The final wrapping of lines 182-185: a decoded list is returned as is,
a dict is wrapped in a singleton list, anything else becomes the empty
list. -/
def pyWrap : JValue → List JValue
  | .arr xs => xs
  | .obj kvs => [.obj kvs]
  | _ => []

/-! ## `_extract_basic_structure` (lines 190-229) -/

def leadsWith (needle hay : List Char) : Bool :=
  (matchLit needle hay).isSome

/-- Python `str.find(needle)` (leftmost index, `none` for `-1`). -/
def strFindGo (needle : List Char) : Nat → List Char → Option Nat
  | i, [] => if needle = [] then some i else none
  | i, c :: cs =>
    if leadsWith needle (c :: cs) then some i else strFindGo needle (i + 1) cs

def strFind (hay needle : List Char) : Option Nat := strFindGo needle 0 hay

/-- Python `content.rfind("{", 0, bound)`: index of the last `{` strictly
before `bound`. -/
def strRfindBrace (hay : List Char) (bound : Nat) : Option Nat :=
  let t := hay.take bound
  match t.reverse.findIdx? (fun c => c == '{') with
  | some j => some (t.length - 1 - j)
  | none => none

/-- The brace-counting loop of lines 203-212 (same scheme as `scanLen`
with `{`/`}`). -/
def braceScanLen : List Char → Int → Option Nat
  | [], _ => none
  | c :: rest, count =>
    if c = '{' then
      match braceScanLen rest (count + 1) with
      | some k => some (k + 1)
      | none => none
    else if c = '}' then
      if count - 1 = 0 then some 1
      else
        match braceScanLen rest (count - 1) with
        | some k => some (k + 1)
        | none => none
    else
      match braceScanLen rest count with
      | some k => some (k + 1)
      | none => none

/-- Python slice `l[a:b]` with possibly negative start (as produced by
`rfind` returning `-1`). -/
def pySlice (l : List Char) (a b : Int) : List Char :=
  let n : Int := l.length
  let norm : Int → Nat := fun x => if x < 0 then (max 0 (n + x)).toNat else (min x n).toNat
  (l.drop (norm a)).take (norm b - norm a)

/-- Matcher for `_PATH_PATTERN = r'"path":\s*"([^"]+)"'` (line 59),
capturing the nonempty path. -/
def pathCapLen : List Char → Option (Nat × List Char)
  | '"' :: 'p' :: 'a' :: 't' :: 'h' :: '"' :: ':' :: rest =>
    let w := rest.takeWhile pyWs
    match rest.drop w.length with
    | '"' :: r2 =>
      let cap := r2.takeWhile (fun c => !(c == '"'))
      match r2.drop cap.length with
      | '"' :: _ => if cap = [] then none else some (7 + w.length + 1 + cap.length + 1, cap)
      | _ => none
    | _ => none
  | _ => none

/-- Matcher for `_METHOD_PATTERN = r'"(GET|POST|PUT|DELETE|PATCH)":\s*\{'`
(line 60), capturing the verb.  The alternation is tried in the source
order; the verbs are letterwise distinct so at most one can match. -/
def methodCapLen (cs : List Char) : Option (Nat × List Char) :=
  match cs with
  | '"' :: r =>
    let tryV : String → Option (Nat × List Char) := fun v =>
      match matchLit (v.toList ++ ['"', ':']) r with
      | some r2 =>
        let w := r2.takeWhile pyWs
        match r2.drop w.length with
        | '{' :: _ => some (1 + v.length + 2 + w.length + 1, v.toList)
        | _ => none
      | none => none
    match tryV "GET" with
    | some x => some x
    | none =>
      match tryV "POST" with
      | some x => some x
      | none =>
        match tryV "PUT" with
        | some x => some x
        | none =>
          match tryV "DELETE" with
          | some x => some x
          | none => tryV "PATCH"
  | _ => none

/-- One iteration of the loop body of lines 196-225 for a captured path:
find the literal `"path": "<path>"`, locate the enclosing object by
backward brace search and forward brace counting, and collect the HTTP
verbs found in that span.  Returns `none` on the `continue` path or when
no verb is found. -/
def ebsEndpoint (content : List Char) (path : List Char) : Option JValue :=
  let needle := "\"path\": \"".toList ++ path ++ ['"']
  match strFind content needle with
  | none => none
  | some pathStart =>
    let objStart : Int :=
      match strRfindBrace content pathStart with
      | some j => (j : Int)
      | none => -1
    let startN : Nat := (objStart + 1).toNat
    let objEnd : Int :=
      match braceScanLen (content.drop startN) 1 with
      | some k => (startN : Int) + k
      | none => objStart + 1
    let objContent := pySlice content objStart objEnd
    let methods := findAllCaps methodCapLen objContent
    match methods with
    | [] => none
    | _ =>
      some (.obj [("path", .str (String.mk path)),
        ("methods", .obj (methods.foldl (fun acc m =>
          assocSet acc (String.mk m) (.obj [
            ("description", .str (String.mk m ++ " " ++ String.mk path)),
            ("method", .str (String.mk m))])) []))])

/-- `_extract_basic_structure` (lines 190-229): find every path capture,
build one endpoint skeleton per path that has discoverable verbs, and wrap
them in a single synthetic root. -/
def extract_basic_structure (content : List Char) : List JValue :=
  let paths := findAllCaps pathCapLen content
  let endpoints := paths.foldl (fun acc p =>
    match ebsEndpoint content p with
    | some e => acc ++ [e]
    | none => acc) []
  match endpoints with
  | [] => []
  | _ => [.obj [("children", .arr endpoints), ("path", .str "/"), ("text", .str "root")]]

/-! ## `_parse_with_python_fallback` and the fallback chain (lines 109-116, 139-188) -/

/-- `_parse_with_python_fallback` (lines 139-188): replace regex literals
by placeholders, rewrite JavaScript syntax to JSON, strict-decode; on
success restore placeholders and wrap; on `json.JSONDecodeError` return
`_extract_basic_structure` of the rewritten text.  Only a decode error is
caught, so the function never raises in the modelled behaviours; the
`Except` type records that the caller treats it as fallible. -/
def parse_with_python_fallback (cs : List Char) : Except String (List JValue) :=
  let rs := replaceRegexAll cs 0
  let norm := normalizeJs rs.1
  match jsonParse norm with
  | some v => .ok (pyWrap (restorePatterns rs.2 v))
  | none => .ok (extract_basic_structure norm)

/-- The fallback dispatch of `extract_api_schema` (lines 109-116).  The
Node.js tier spawns an external interpreter and is modelled by its result
`nodeResult`; its exception is swallowed, then the Python fallback is
tried with its exception swallowed, and `_extract_basic_structure` on the
whole file content is the last resort (outside any `try`). -/
def extract_api_schema_dispatch (nodeResult : Except String (List JValue))
    (schemaStr content : List Char) : List JValue :=
  match nodeResult with
  | .ok v => v
  | .error _ =>
    match parse_with_python_fallback schemaStr with
    | .ok v => v
    | .error _ => extract_basic_structure content

/-! ## `flatten_api_endpoints` (lines 231-272) -/

/-- The HTTP verb keys recognized as direct method keys (line 254). -/
def methodKeyList : List String := ["GET", "POST", "PUT", "DELETE", "PATCH"]

mutual

/-- `flatten_api_endpoints` (lines 231-272): walk the node list, emitting a
descriptor for a node with a truthy `info` map and another for a node with
direct verb keys, then recursing into truthy `children`.  String
concatenation with a non-string path and iteration over a non-iterable
`children` are the Python `TypeError`s. -/
def flatten_api_endpoints : List JValue → String → Except String (List JValue)
  | [], _ => .ok []
  | item :: rest, pp =>
    match flattenItem item pp with
    | .ok here =>
      match flatten_api_endpoints rest pp with
      | .ok tail => .ok (here ++ tail)
      | .error e => .error e
    | .error e => .error e

/-- One iteration of the loop body of `flatten_api_endpoints` for one node
(a non-dict node contributes nothing, line 238-239). -/
def flattenItem : JValue → String → Except String (List JValue)
  | .obj kvs, pp =>
    match (lookupKV kvs "path").getD (.str "") with
    | .str ps =>
      let cp := pp ++ ps
      let e1 : List JValue :=
        match lookupKV kvs "info" with
        | some iv =>
          if pyTruthy iv then
            [.obj [("path", .str cp), ("methods", iv),
              ("text", (lookupKV kvs "text").getD (.str "")),
              ("leaf", (lookupKV kvs "leaf").getD (.num "0"))]]
          else []
        | none => []
      let dm := kvs.filter (fun kv => methodKeyList.contains kv.1)
      let e2 : List JValue :=
        match dm with
        | [] => []
        | _ => [.obj [("path", .str cp), ("methods", .obj dm),
            ("text", (lookupKV kvs "text").getD (.str "")),
            ("leaf", (lookupKV kvs "leaf").getD (.num "0"))]]
      match flattenChildren kvs cp with
      | .ok ce => .ok (e1 ++ e2 ++ ce)
      | .error e => .error e
    | _ => .error "TypeError: can only concatenate str"
  | _, _ => .ok []

/-- The `children` handling of lines 266-270: first occurrence of the
`children` key (Python dict lookup); recurse when it is a truthy list.
Iterating a truthy dict yields its string keys and a truthy string yields
its characters, none of which are dicts, so both contribute nothing;
iterating a number or boolean raises. -/
def flattenChildren : List (String × JValue) → String → Except String (List JValue)
  | [], _ => .ok []
  | (k, v) :: tl, cp =>
    if k = "children" then
      if pyTruthy v then
        match v with
        | .arr xs => flatten_api_endpoints xs cp
        | .obj _ => .ok []
        | .str _ => .ok []
        | _ => .error "TypeError: not iterable"
      else .ok []
    else flattenChildren tl cp

end

/-! ## Synthesizer configuration and string helpers -/

/-- The two API families (`ProxmoxAPI`, lines 20-24). -/
inductive ProxmoxAPIT where
  | pve : ProxmoxAPIT
  | pbs : ProxmoxAPIT
deriving DecidableEq

/-- The fields of `APIConfig` (lines 27-42) consumed by the modelled
functions.  `security_patterns` is `Optional[List[...]]` in the source;
`None` and `[]` are both falsy there and are modelled by `[]`. -/
structure APIConfig where
  api_type : ProxmoxAPIT
  tag_mapping : List (String × String)
  security_patterns : List JValue

/-- ASCII model of Python `str.lower` on one character. -/
def pyLowerChar (c : Char) : Char :=
  if 'A' ≤ c ∧ c ≤ 'Z' then Char.ofNat (c.toNat + 32) else c

/-- ASCII model of Python `str.upper` on one character. -/
def pyUpperChar (c : Char) : Char :=
  if 'a' ≤ c ∧ c ≤ 'z' then Char.ofNat (c.toNat - 32) else c

def pyLower (s : String) : String := String.mk (s.toList.map pyLowerChar)

def pyUpper (s : String) : String := String.mk (s.toList.map pyUpperChar)

/-- ASCII model of Python `str.title`: a letter is uppercased when the
previous character is not a letter, lowercased otherwise. -/
def pyTitleGo (prevAlpha : Bool) : List Char → List Char
  | [] => []
  | c :: r =>
    (if c.isAlpha then (if prevAlpha then pyLowerChar c else pyUpperChar c) else c)
      :: pyTitleGo c.isAlpha r

/-- Python `str.split(sep)` for a one-character separator. -/
def splitOnCharGo (sep : Char) : List Char → List Char → List (List Char)
  | acc, [] => [acc.reverse]
  | acc, c :: r =>
    if c = sep then acc.reverse :: splitOnCharGo sep [] r
    else splitOnCharGo sep (c :: acc) r

def lookupStr : List (String × String) → String → Option String
  | [], _ => none
  | (k', v') :: rest, k => if k' = k then some v' else lookupStr rest k

/-- Python `sub in s` substring test. -/
def strContains (hay sub : List Char) : Bool := (strFind hay sub).isSome

/-- `_determine_tag` (lines 917-922). -/
def _determine_tag (cfg : APIConfig) (path : String) : String :=
  let parts := splitOnCharGo '/' [] (pyStripChar '/' path.toList)
  match parts with
  | p0 :: _ =>
    if p0 ≠ [] then
      match lookupStr cfg.tag_mapping (String.mk p0) with
      | some t => t
      | none => String.mk (pyTitleGo false p0)
    else "Default"
  | [] => "Default"

/-- Matcher for `_PATH_PARAMS_PATTERN = r"\{([^}]+)\}"` (line 61). -/
def pathParamCapLen : List Char → Option (Nat × List Char)
  | '{' :: rest =>
    let cap := rest.takeWhile (fun c => !(c == '}'))
    match rest.drop cap.length with
    | '}' :: _ =>
      match cap with
      | [] => none
      | _ => some (cap.length + 2, cap)
    | _ => none
  | _ => none

/-- `self._PATH_PARAMS_PATTERN.findall(endpoint["path"])` (line 568). -/
def pathParamsOf (path : String) : List String :=
  (findAllCaps pathParamCapLen path.toList).map String.mk

/-- The `operationId` expression of line 560:
`method.lower() + "_" + path.replace("/", "_").replace("{", "").replace("}", "").strip("_")`. -/
def opIdOf (method path : String) : String :=
  pyLower method ++ "_" ++
    String.mk (pyStripChar '_'
      (((path.toList.map (fun c => if c = '/' then '_' else c)).filter
          (fun c => !(c == '{'))).filter (fun c => !(c == '}'))))

/-- An OpenAPI `$ref` object for a shared schema. -/
def sref (name : String) : JValue :=
  .obj [("$ref", .str ("#/components/schemas/" ++ name))]

/-- `_get_path_param_schema` (lines 674-705). -/
def _get_path_param_schema (cfg : APIConfig) (param_name : String) : JValue :=
  if param_name = "vmid" ∨ param_name = "ctid" then sref "ProxmoxVmId"
  else if param_name = "node" then sref "ProxmoxNodeId"
  else if param_name = "storage" then sref "ProxmoxStorageId"
  else if param_name = "userid" then sref "ProxmoxUserId"
  else if (param_name = "datastore" ∨ param_name = "store") ∧ cfg.api_type = .pbs then
    sref "ProxmoxDatastoreName"
  else if (param_name = "backup-id" ∨ param_name = "backup_id") ∧ cfg.api_type = .pbs then
    sref "ProxmoxBackupId"
  else if (param_name = "digest" ∨ param_name = "checksum") ∧ cfg.api_type = .pbs then
    sref "ProxmoxSha256"
  else if param_name = "poolid" ∨ param_name = "realm" ∨ param_name = "group" ∨
      param_name = "role" then
    sref "ProxmoxResourceName"
  else
    .obj [("type", .str "string"),
      ("description", .str ("The " ++ param_name ++ " parameter"))]

/-! ## Numeric comparisons for `_get_standardized_schema_ref` -/

def digitsToNat (ds : List Char) : Nat :=
  ds.foldl (fun a c => 10 * a + (c.toNat - 48)) 0

/-- Exact value of a decimal number token as mantissa and power of ten. -/
def numTokScaled (tok : String) : Option (Int × Int) :=
  let cs := tok.toList
  let sg : Int × List Char :=
    match cs with
    | '-' :: r => (-1, r)
    | '+' :: r => (1, r)
    | _ => (1, cs)
  let ip := sg.2.takeWhile Char.isDigit
  let cs2 := sg.2.drop ip.length
  match ip with
  | [] => none
  | _ =>
    let fp : List Char × List Char :=
      match cs2 with
      | '.' :: r => (r.takeWhile Char.isDigit, r.drop (r.takeWhile Char.isDigit).length)
      | _ => ([], cs2)
    let ex : Int :=
      match fp.2 with
      | e :: r =>
        if e = 'e' ∨ e = 'E' then
          match r with
          | '-' :: rr => -(digitsToNat (rr.takeWhile Char.isDigit) : Int)
          | '+' :: rr => (digitsToNat (rr.takeWhile Char.isDigit) : Int)
          | _ => (digitsToNat (r.takeWhile Char.isDigit) : Int)
        else 0
      | [] => 0
    some (sg.1 * (digitsToNat (ip ++ fp.1) : Int), ex - fp.1.length)

/-- Exact comparison of a scaled decimal with an integer. -/
def scaledCmpInt (m e n : Int) : Ordering :=
  if e ≥ 0 then compare (m * 10 ^ e.toNat) n else compare m (n * 10 ^ (-e).toNat)

/-- Python `v == n` for a decoded JSON value against an int (booleans are
ints in Python; other types compare unequal). -/
def pyEqInt (v : Option JValue) (n : Int) : Bool :=
  match v with
  | some (.num t) =>
    match numTokScaled t with
    | some (m, e) => scaledCmpInt m e n == Ordering.eq
    | none => false
  | some (.bool b) => (if b then (1 : Int) else 0) == n
  | _ => false

/-- Python `v > n` for a decoded JSON value against an int; a non-numeric
operand raises `TypeError`. -/
def pyGtInt (v : JValue) (n : Int) : Except String Bool :=
  match v with
  | .num t =>
    match numTokScaled t with
    | some (m, e) => .ok (scaledCmpInt m e n == Ordering.gt)
    | none => .error "ValueError: bad numeric token"
  | .bool b => .ok ((if b then (1 : Int) else 0) > n)
  | _ => .error "TypeError: not supported between instances"

/-! ## `_get_standardized_schema_ref` (lines 834-881) -/

/-- `param_info.get("format") if param_info.get("format") else None`
(lines 741, 799). -/
def truthyFmt (info : List (String × JValue)) : Option JValue :=
  match lookupKV info "format" with
  | some f => if pyTruthy f then some f else none
  | none => none

def _get_standardized_schema_ref (cfg : APIConfig)
    (param_info : List (String × JValue)) :
    Except String (List (String × JValue)) := do
  let pt := (lookupKV param_info "type").getD (.str "string")
  let pat := (lookupKV param_info "pattern").getD (.str "")
  let descV := (lookupKV param_info "description").getD (.str "")
  let desc ← match descV with
    | .str s => Except.ok (pyLower s).toList
    | _ => Except.error "AttributeError: lower"
  let patEq : String → Bool := fun q =>
    match pat with
    | .str s => s == q
    | _ => false
  let typeEq : String → Bool := fun q =>
    match pt with
    | .str s => s == q
    | _ => false
  if patEq "^[a-zA-Z0-9]([a-zA-Z0-9\\-]\x7b0,61\x7d[a-zA-Z0-9])?$" then
    pure [("$ref", .str "#/components/schemas/ProxmoxNodeId")]
  else do
    let emailHit : Option (List (String × JValue)) :=
      if patEq "^[^@]+@[^@]+$" then
        if strContains desc "user".toList || strContains desc "email".toList then
          if strContains desc "user".toList then
            some [("$ref", .str "#/components/schemas/ProxmoxUserId")]
          else some [("$ref", .str "#/components/schemas/ProxmoxEmail")]
        else none
      else none
    match emailHit with
    | some r => pure r
    | none => do
      let vm ←
        if typeEq "integer" ∧ pyEqInt (lookupKV param_info "minimum") 1 then
          pyGtInt ((lookupKV param_info "maximum").getD (.num "0")) 100000
        else pure false
      if vm then
        pure [("$ref", .str "#/components/schemas/ProxmoxVmId")]
      else if patEq "^[a-f0-9]\x7b64\x7d$" ∧ cfg.api_type = .pbs then
        pure [("$ref", .str "#/components/schemas/ProxmoxSha256")]
      else if patEq "^[A-Za-z0-9_][A-Za-z0-9._\\-]*$" ∨
          patEq "^(?:[A-Za-z0-9_][A-Za-z0-9._\\-]*)$" then
        if cfg.api_type = .pbs ∧
            (strContains desc "datastore".toList || strContains desc "store".toList) then
          pure [("$ref", .str "#/components/schemas/ProxmoxDatastoreName")]
        else if cfg.api_type = .pbs ∧ strContains desc "backup".toList then
          pure [("$ref", .str "#/components/schemas/ProxmoxBackupId")]
        else if strContains desc "storage".toList then
          pure [("$ref", .str "#/components/schemas/ProxmoxStorageId")]
        else
          pure [("$ref", .str "#/components/schemas/ProxmoxResourceName")]
      else pure []

/-! ## `_convert_type_to_openapi` (lines 803-832) and parameter schemas -/

def joinCommaSpace : List String → String
  | [] => ""
  | [s] => s
  | s :: rest => s ++ ", " ++ joinCommaSpace rest

mutual

/-- Approximation of Python `str(v)` for a decoded value, used only in the
`f"Type: {pbs_type}"` fallback of line 832 (strings verbatim, scalars as
their Python rendering, containers via `repr`-style rendering). -/
def jvPyStr : JValue → String
  | .str s => s
  | v => jvPyRepr v

def jvPyRepr : JValue → String
  | .null => "None"
  | .bool b => if b then "True" else "False"
  | .num t => t
  | .str s => String.mk (apos :: s.toList ++ [apos])
  | .arr xs => "[" ++ joinCommaSpace (jvPyReprList xs) ++ "]"
  | .obj kvs => "\x7b" ++ joinCommaSpace (jvPyReprKvs kvs) ++ "\x7d"

def jvPyReprList : List JValue → List String
  | [] => []
  | x :: xs => jvPyRepr x :: jvPyReprList xs

def jvPyReprKvs : List (String × JValue) → List String
  | [] => []
  | (k, v) :: kvs =>
    (String.mk (apos :: k.toList ++ [apos]) ++ ": " ++ jvPyRepr v) :: jvPyReprKvs kvs

end

def _convert_type_to_openapi (cfg : APIConfig) (pbs_type : JValue)
    (format_hint : Option JValue) (param_info : Option (List (String × JValue))) :
    Except String (List (String × JValue)) := do
  let r ← match param_info with
    | some info => _get_standardized_schema_ref cfg info
    | none => pure []
  match r with
  | _ :: _ => pure r
  | [] =>
    match pbs_type with
    | .str s =>
      if ["string", "integer", "number", "boolean", "array", "object", "null"].contains s then
        let base := [("type", JValue.str s)]
        match format_hint with
        | some f => pure (assocSet base "format" f)
        | none => pure base
      else pure [("type", JValue.str "string"), ("description", JValue.str ("Type: " ++ s))]
    | _ =>
      pure [("type", JValue.str "string"),
        ("description", JValue.str ("Type: " ++ jvPyStr pbs_type))]

/-- `_add_param_constraints` (lines 768-775); the `try/except` swallows
nothing observable since dict assignment cannot raise. -/
def _add_param_constraints (param_schema : List (String × JValue))
    (param_info : List (String × JValue)) : List (String × JValue) :=
  ["minLength", "maxLength", "minimum", "maximum"].foldl (fun acc ck =>
    match lookupKV param_info ck with
    | some v => assocSet acc ck v
    | none => acc) param_schema

/-- The delimiter unwrapping of lines 782-785: `/.../` loses one character
at each end, `"/.../"` loses two (Python slicing semantics, so short
overlapping strings yield the empty pattern). -/
def unwrapPattern (p : String) : String :=
  let cs := p.toList
  if cs.head? = some '/' ∧ cs.getLast? = some '/' then String.mk ((cs.drop 1).dropLast)
  else if cs.take 2 = ['"', '/'] ∧ (cs.reverse.take 2 = ['"', '/']) then
    String.mk (((cs.drop 2).dropLast).dropLast)
  else p

/-- `_add_param_pattern` (lines 777-790).  `reCompileOk` is the oracle for
`re.compile` succeeding on the unwrapped pattern; on failure the
`except re.error: pass` keeps the schema unchanged. -/
def _add_param_pattern (reCompileOk : String → Bool)
    (param_schema : List (String × JValue))
    (param_info : List (String × JValue)) : List (String × JValue) :=
  match lookupKV param_info "pattern" with
  | some (.str p) =>
    if reCompileOk (unwrapPattern p) then
      assocSet param_schema "pattern" (.str (unwrapPattern p))
    else param_schema
  | some _ => param_schema
  | none => param_schema

/-- `_add_array_items` (lines 792-801). -/
def _add_array_items (cfg : APIConfig) (param_schema : List (String × JValue))
    (param_info : List (String × JValue)) : Except String (List (String × JValue)) :=
  let isArr : Bool :=
    match lookupKV param_info "type" with
    | some (.str s) => s == "array"
    | _ => false
  if isArr then
    match lookupKV param_info "items" with
    | some (.obj items_info) => do
      let it ← _convert_type_to_openapi cfg ((lookupKV items_info "type").getD (.str "string"))
        (truthyFmt items_info) (some items_info)
      pure (assocSet param_schema "items" (.obj it))
    | some _ => pure param_schema
    | none => pure param_schema
  else pure param_schema

/-- The `description` copy of lines 748-749. -/
def addDescription (s0 : List (String × JValue)) (param_info : List (String × JValue)) :
    List (String × JValue) :=
  match lookupKV param_info "description" with
  | some d => assocSet s0 "description" d
  | none => s0

/-- The `enum` copy of lines 757-758. -/
def addEnum (s3 : List (String × JValue)) (param_info : List (String × JValue)) :
    List (String × JValue) :=
  match lookupKV param_info "enum" with
  | some (.arr es) => assocSet s3 "enum" (.arr es)
  | _ => s3

/-- The `default` copy of lines 760-761. -/
def addDefault (s4 : List (String × JValue)) (param_info : List (String × JValue)) :
    List (String × JValue) :=
  match lookupKV param_info "default" with
  | some d => assocSet s4 "default" d
  | none => s4

/-- `_build_param_schema` (lines 737-766); `param_name` is accepted and
unused, as in the source. -/
def _build_param_schema (cfg : APIConfig) (reCompileOk : String → Bool)
    (param_name : String) (param_info : List (String × JValue)) :
    Except String (List (String × JValue)) := do
  let s0 ← _convert_type_to_openapi cfg ((lookupKV param_info "type").getD (.str "string"))
    (truthyFmt param_info) (some param_info)
  _add_array_items cfg
    (addDefault (addEnum
      (_add_param_pattern reCompileOk
        (_add_param_constraints (addDescription s0 param_info) param_info)
        param_info) param_info) param_info) param_info

/-- `_convert_parameters_to_openapi` (lines 707-735). -/
def _convert_parameters_to_openapi (cfg : APIConfig) (reCompileOk : String → Bool)
    (pbs_params : JValue) : Except String JValue :=
  let emptyRes : JValue := .obj [("type", .str "object"), ("properties", .obj [])]
  match pbs_params with
  | .obj kvs =>
    if !pyTruthy (JValue.obj kvs) then pure emptyRes
    else
      match lookupKV kvs "properties" with
      | none => pure emptyRes
      | some (.obj propKvs) => do
        let pr ← propKvs.foldlM
          (fun (acc : List (String × JValue) × List JValue) pkv => do
            match pkv.2 with
            | .obj pinfo => do
              let ps ← _build_param_schema cfg reCompileOk pkv.1 pinfo
              let req :=
                if pyTruthy ((lookupKV pinfo "optional").getD (.bool false)) then acc.2
                else acc.2 ++ [JValue.str pkv.1]
              pure (assocSet acc.1 pkv.1 (.obj ps), req)
            | _ => pure acc) (([], []) : List (String × JValue) × List JValue)
        let base := [("type", JValue.str "object"), ("properties", JValue.obj pr.1)]
        match pr.2 with
        | [] => pure (.obj base)
        | _ => pure (.obj (base ++ [("required", .arr pr.2)]))
      | some _ => .error "AttributeError: items"
  | _ => pure emptyRes

/-! ## `_convert_returns_to_openapi_schema` (lines 883-915) -/

mutual

def _convert_returns_to_openapi_schema (cfg : APIConfig) : JValue → Except String JValue
  | .obj rkvs => do
    let s0 ← _convert_type_to_openapi cfg ((lookupKV rkvs "type").getD (.str "object"))
      (truthyFmt rkvs) (some rkvs)
    let isArr : Bool :=
      match lookupKV rkvs "type" with
      | some (.str s) => s == "array"
      | _ => false
    let s1 ←
      if isArr then do
        match ← returnsItemsScan cfg rkvs with
        | some it => pure (assocSet s0 "items" it)
        | none => pure s0
      else pure s0
    let isObjT : Bool :=
      match lookupKV rkvs "type" with
      | some (.str s) => s == "object"
      | _ => false
    let s2 ←
      if isObjT then do
        match ← returnsPropsScan cfg rkvs with
        | some raw =>
          match dictFromPairs raw with
          | [] => pure s1
          | props => pure (assocSet s1 "properties" (.obj props))
        | none => pure s1
      else pure s1
    let s3 := match lookupKV rkvs "description" with
      | some d => assocSet s2 "description" d
      | none => s2
    pure (.obj s3)
  | _ => pure (.obj [("type", .str "string")])

/-- First occurrence of the `items` key (Python dict lookup, guarded by
`"items" in returns_info`); a non-dict value fails the `isinstance` check
and is skipped. -/
def returnsItemsScan (cfg : APIConfig) : List (String × JValue) → Except String (Option JValue)
  | [] => pure none
  | (k, v) :: tl =>
    if k = "items" then
      match v with
      | .obj ikvs => do
        let it ← _convert_returns_to_openapi_schema cfg (.obj ikvs)
        pure (some it)
      | _ => pure none
    else returnsItemsScan cfg tl

/-- First occurrence of the `properties` key; iterating a non-dict value
raises `AttributeError`. -/
def returnsPropsScan (cfg : APIConfig) :
    List (String × JValue) → Except String (Option (List (String × JValue)))
  | [] => pure none
  | (k, v) :: tl =>
    if k = "properties" then
      match v with
      | .obj pkvs => do
        let raw ← convertReturnsProps cfg pkvs
        pure (some raw)
      | _ => .error "AttributeError: items"
    else returnsPropsScan cfg tl

/-- The `properties` loop of lines 902-907: recursively convert each
dict-valued property, skipping the rest. -/
def convertReturnsProps (cfg : APIConfig) :
    List (String × JValue) → Except String (List (String × JValue))
  | [] => pure []
  | (k, v) :: tl =>
    match v with
    | .obj vk => do
      let s ← _convert_returns_to_openapi_schema cfg (.obj vk)
      let rest ← convertReturnsProps cfg tl
      pure ((k, s) :: rest)
    | _ => convertReturnsProps cfg tl

end

/-! ## Responses and operations (lines 486-545, 547-672) -/

/-- `_get_standardized_error_responses` (lines 486-545). -/
def std_error_responses : List (String × JValue) :=
  [("400", .obj [
      ("description", .str "Bad Request - Invalid input parameters or malformed request"),
      ("content", .obj [("application/json", .obj [("schema", sref "ProxmoxError")])])]),
   ("401", .obj [
      ("description", .str "Unauthorized - Authentication required or invalid credentials"),
      ("content", .obj [("application/json", .obj [("schema", sref "ProxmoxError")])])]),
   ("403", .obj [
      ("description", .str "Forbidden - Insufficient permissions for the requested operation"),
      ("content", .obj [("application/json", .obj [("schema", sref "ProxmoxError")])])]),
   ("404", .obj [
      ("description", .str "Not Found - Requested resource does not exist"),
      ("content", .obj [("application/json", .obj [("schema", sref "ProxmoxError")])])]),
   ("422", .obj [
      ("description", .str "Unprocessable Entity - Request is well-formed but contains semantic errors"),
      ("content", .obj [("application/json", .obj [("schema", sref "ProxmoxError")])])]),
   ("500", .obj [
      ("description", .str "Internal Server Error - Unexpected server error"),
      ("content", .obj [("application/json", .obj [("schema", sref "ProxmoxError")])])]),
   ("503", .obj [
      ("description", .str "Service Unavailable - Service temporarily unavailable"),
      ("content", .obj [("application/json", .obj [("schema", sref "ProxmoxError")])])])]

/-- The generic success response of lines 660-667. -/
def default200_entries : List (String × JValue) :=
  [("200", .obj [("description", .str "Successful operation"),
    ("content", .obj [("application/json", .obj [("schema", sref "ProxmoxSuccess")])])])]

/-- The `200` entry of `_build_operation_responses` (lines 646-667): the
`returns`-derived success response, the generic success reference, or no
`200` at all for a truthy non-dict `returns`. -/
def success_response_entries (cfg : APIConfig) (method_info : List (String × JValue)) :
    Except String (List (String × JValue)) :=
  match lookupKV method_info "returns" with
  | some rv =>
    if pyTruthy rv then
      match rv with
      | .obj rkvs => do
        let rs ← _convert_returns_to_openapi_schema cfg (.obj rkvs)
        pure [("200", JValue.obj [
          ("description", (lookupKV rkvs "description").getD (.str "Successful operation")),
          ("content", JValue.obj [("application/json", JValue.obj [("schema", rs)])])])]
      | _ => pure ([] : List (String × JValue))
    else pure (default200_entries)
  | none => pure (default200_entries)

/-- `_build_operation_responses` (lines 644-672): the `200` entry followed
by `responses.update(...)` with the standardized error responses. -/
def _build_operation_responses (cfg : APIConfig) (method_info : List (String × JValue)) :
    Except String JValue := do
  let base ← success_response_entries cfg method_info
  pure (.obj (dictUpdate base std_error_responses))

/-- The path-parameter objects of lines 567-578, in path order. -/
def _path_param_objs (cfg : APIConfig) (path_params : List String) : List JValue :=
  path_params.map (fun p => .obj [
    ("name", .str p), ("in", .str "path"), ("required", .bool true),
    ("schema", _get_path_param_schema cfg p),
    ("description", .str ("The " ++ p ++ " parameter"))])

/-- The query-parameter objects of lines 586-600: declared properties that
are not path parameters, each marked required when listed in the schema's
`required` list. -/
def _query_param_objs (props : List (String × JValue)) (reqList : List JValue)
    (path_params : List String) : List JValue :=
  (props.filter (fun kv => !(path_params.contains kv.1))).map (fun kv =>
    let required := reqList.any (fun v =>
      match v with
      | .str s => s == kv.1
      | _ => false)
    let base := [("name", JValue.str kv.1), ("in", JValue.str "query"),
      ("required", JValue.bool required), ("schema", kv.2)]
    match kv.2 with
    | .obj pk =>
      match lookupKV pk "description" with
      | some d => .obj (base ++ [("description", d)])
      | none => .obj base
    | _ => .obj base)

/-- The request-body construction of lines 601-628: declared properties
that are not path parameters aggregated into one JSON schema; `none` when
no such property remains. -/
def _request_body (props : List (String × JValue)) (reqList : List JValue)
    (path_params : List String) : Option JValue :=
  let body_properties := props.filter (fun kv => !(path_params.contains kv.1))
  let body_required := reqList.filter (fun v =>
    match v with
    | .str s => !(path_params.contains s)
    | _ => true)
  match body_properties with
  | [] => none
  | _ =>
    let bs := [("type", JValue.str "object"), ("properties", JValue.obj body_properties)]
    let bs2 := match body_required with
      | [] => bs
      | _ => bs ++ [("required", JValue.arr body_required)]
    some (.obj [
      ("required", .bool (match body_required with | [] => false | _ => true)),
      ("content", .obj [("application/json", .obj [("schema", .obj bs2)])])])

/-- The tail of the loop body of lines 601-640: the conditional
assignments `operation["requestBody"]`, `operation["parameters"]`,
`operation["responses"]`, `operation["security"]` in source order. -/
def opBodyStep (op0 : List (String × JValue)) : Option JValue → List (String × JValue)
  | some b => assocSet op0 "requestBody" b
  | none => op0

def opParamsStep (op1 : List (String × JValue)) : List JValue → List (String × JValue)
  | [] => op1
  | ps => assocSet op1 "parameters" (.arr ps)

def opSecStep (op3 : List (String × JValue)) : List JValue → List (String × JValue)
  | [] => op3
  | sec => assocSet op3 "security" (.arr sec)

def opAssemble (op0 : List (String × JValue)) (rb : Option JValue)
    (parameters : List JValue) (resp : JValue) (sec : List JValue) :
    List (String × JValue) :=
  opSecStep (assocSet (opParamsStep (opBodyStep op0 rb) parameters) "responses" resp) sec

/-- `endpoint["path"]` (first use inside the loop body, line 557). -/
def epPathV (endpoint : JValue) : Except String JValue :=
  match endpoint with
  | .obj ekvs =>
    match lookupKV ekvs "path" with
    | some v => Except.ok v
    | none => Except.error "KeyError: path"
  | _ => Except.error "TypeError: not subscriptable"

/-- The path must be a string for `.replace`/`findall` (lines 560, 568). -/
def asPathStr (pathV : JValue) : Except String String :=
  match pathV with
  | .str s => Except.ok s
  | _ => Except.error "TypeError: path is not a string"

/-- The fixed keys of the operation dict literal of lines 555-562. -/
def opBase (cfg : APIConfig) (method path : String)
    (method_info : List (String × JValue)) : List (String × JValue) :=
  [("summary", (lookupKV method_info "description").getD (.str (method ++ " " ++ path))),
   ("description", (lookupKV method_info "description").getD (.str "")),
   ("operationId", .str (opIdOf method path)),
   ("tags", .arr [.str (_determine_tag cfg path)])]

/-- The query-parameter / request-body dichotomy of lines 580-628: returns
the extra (query) parameter objects and the optional request body. -/
def buildQueryBody (cfg : APIConfig) (reCompileOk : String → Bool) (method : String)
    (method_info : List (String × JValue)) (path_params : List String) :
    Except String (List JValue × Option JValue) :=
  match lookupKV method_info "parameters" with
  | some pv =>
    if pyTruthy pv then do
      let ps ← _convert_parameters_to_openapi cfg reCompileOk pv
      let props : List (String × JValue) :=
        match ps with
        | .obj pskvs =>
          match lookupKV pskvs "properties" with
          | some (.obj pr) => pr
          | _ => []
        | _ => []
      let reqList : List JValue :=
        match ps with
        | .obj pskvs =>
          match lookupKV pskvs "required" with
          | some (.arr rl) => rl
          | _ => []
        | _ => []
      if pyUpper method = "GET" ∨ pyUpper method = "DELETE" then
        match props with
        | [] => pure (([] : List JValue), (none : Option JValue))
        | _ => pure (_query_param_objs props reqList path_params, (none : Option JValue))
      else
        match props with
        | [] => pure (([] : List JValue), (none : Option JValue))
        | _ => pure (([] : List JValue), _request_body props reqList path_params)
    else pure (([] : List JValue), (none : Option JValue))
  | none => pure (([] : List JValue), (none : Option JValue))

/-- The loop body of `_convert_endpoint_to_openapi` (lines 555-640) for one
verb whose definition is a dict: build the operation object in the
source's key order (summary, description, operationId, tags, then
requestBody, parameters, responses, security as assigned). -/
def buildOp (cfg : APIConfig) (reCompileOk : String → Bool) (endpoint : JValue)
    (method : String) (method_info : List (String × JValue)) : Except String JValue := do
  let pathV ← epPathV endpoint
  let path ← asPathStr pathV
  let qb ← buildQueryBody cfg reCompileOk method method_info (pathParamsOf path)
  let resp ← _build_operation_responses cfg method_info
  pure (.obj (opAssemble (opBase cfg method path method_info) qb.2
    (_path_param_objs cfg (pathParamsOf path) ++ qb.1) resp cfg.security_patterns))

/-- The verb loop of `_convert_endpoint_to_openapi` (lines 549-642): a
non-dict method definition is skipped (`continue`), otherwise the built
operation is assigned under the lowercased verb. -/
def convert_methods (cfg : APIConfig) (reCompileOk : String → Bool) (endpoint : JValue) :
    List (String × JValue) → List (String × JValue) → Except String (List (String × JValue))
  | [], acc => .ok acc
  | (m, mi) :: rest, acc =>
    match mi with
    | .obj mikvs => do
      let op ← buildOp cfg reCompileOk endpoint m mikvs
      convert_methods cfg reCompileOk endpoint rest (assocSet acc (pyLower m) op)
    | _ => convert_methods cfg reCompileOk endpoint rest acc

/-- `endpoint["methods"].items()` (line 551). -/
def epMethodItems (endpoint : JValue) : Except String (List (String × JValue)) :=
  match endpoint with
  | .obj ekvs =>
    match lookupKV ekvs "methods" with
    | some (.obj mk) => Except.ok mk
    | some _ => Except.error "AttributeError: items"
    | none => Except.error "KeyError: methods"
  | _ => Except.error "TypeError: not subscriptable"

/-- `_convert_endpoint_to_openapi` (lines 547-642). -/
def _convert_endpoint_to_openapi (cfg : APIConfig) (reCompileOk : String → Bool)
    (endpoint : JValue) : Except String JValue := do
  let mkvs ← epMethodItems endpoint
  let pi ← convert_methods cfg reCompileOk endpoint mkvs []
  pure (.obj pi)

/-! ## Accessors and concrete inputs used by the theorems -/

/-- Field of an emitted path item: the operation stored under a verb key,
when the conversion succeeded. -/
def pathItemField (res : Except String JValue) (k : String) : Option JValue :=
  match res with
  | .ok (.obj kvs) => lookupKV kvs k
  | _ => none

/-- Field of an operation inside an emitted path item. -/
def opField (res : Except String JValue) (verb field : String) : Option JValue :=
  match pathItemField res verb with
  | some (.obj kvs) => lookupKV kvs field
  | _ => none

/-- The schema referenced by an error-response object, through
`content → application/json → schema`. -/
def errSchemaOf (v : JValue) : Option JValue :=
  match v with
  | .obj kvs =>
    match lookupKV kvs "content" with
    | some (.obj c1) =>
      match lookupKV c1 "application/json" with
      | some (.obj c2) => lookupKV c2 "schema"
      | _ => none
    | _ => none
  | _ => none

/-- A minimal configuration for concrete evaluations. -/
def wCfg : APIConfig :=
  { api_type := .pve, tag_mapping := [("nodes", "Nodes")],
    security_patterns := [JValue.obj [("ProxmoxApiToken", JValue.arr [])]] }

/-- A concrete regex-compilation oracle that accepts every pattern. -/
def wOk : String → Bool := fun _ => true

/-- A concrete regex-compilation oracle that rejects every pattern,
standing in for `re.compile` raising `re.error`. -/
def wBadRe : String → Bool := fun _ => false

/-- A concrete method map with a GET operation carrying an optional query
parameter, a POST with one body parameter, and a verb whose definition is
not a mapping. -/
def wMkvs : List (String × JValue) :=
  [("GET", JValue.obj [("description", JValue.str "Read status"),
      ("parameters", JValue.obj [("properties", JValue.obj [
        ("verbose", JValue.obj [("type", JValue.str "boolean"),
          ("optional", JValue.bool true)])])])]),
    ("POST", JValue.obj [("parameters", JValue.obj [("properties", JValue.obj [
      ("cmd", JValue.obj [("type", JValue.str "string")])])])]),
    ("PUT", JValue.str "junk")]

/-- The key-value list of the concrete endpoint descriptor. -/
def wEpKvs : List (String × JValue) :=
  [("path", JValue.str "/nodes/\x7bnode\x7d/status"),
    ("methods", JValue.obj wMkvs)]

/-- A concrete endpoint descriptor built from `wEpKvs`. -/
def wEp : JValue := JValue.obj wEpKvs

/-- The path item emitted for `wEp` (total extraction of the successful
conversion, used to state concrete instances). -/
def wPathItem : JValue :=
  match _convert_endpoint_to_openapi wCfg wOk wEp with
  | .ok v => v
  | .error e => .str e

/-- The GET operation inside `wPathItem`. -/
def wOpGet : JValue :=
  (pathItemField (_convert_endpoint_to_openapi wCfg wOk wEp) "get").getD .null

/-- The POST operation inside `wPathItem`. -/
def wOpPost : JValue :=
  (pathItemField (_convert_endpoint_to_openapi wCfg wOk wEp) "post").getD .null

/-- A parameter declaration whose pattern does not compile. -/
def wBadInfo : List (String × JValue) :=
  [("type", JValue.str "string"), ("pattern", JValue.str "[")]

/-- Two endpoint descriptors with distinct paths that collide after
separator stripping. -/
def wEpA : JValue :=
  JValue.obj [("path", JValue.str "/ab"),
    ("methods", JValue.obj [("GET", JValue.obj [])])]

def wEpB : JValue :=
  JValue.obj [("path", JValue.str "/a\x7bb\x7d"),
    ("methods", JValue.obj [("GET", JValue.obj [])])]

/-- Concrete fallback input containing a regex literal with an apostrophe:
`["/a'b/"]`. -/
def wRegexInput : List Char :=
  ['[', '"', '/', 'a', apos, 'b', '/', '"', ']']

/-- The regex literal recorded from `wRegexInput`: `"/a'b/"`. -/
def wRegexLit : List Char :=
  ['"', '/', 'a', apos, 'b', '/', '"']

/-! ## Theorems about the bracket scanner -/

theorem scanLen_spec (cs : List Char) : ∀ (count : Int) (n : Nat),
    1 ≤ count → scanLen cs count = some n →
    count + bracketBal (cs.take n) = 0 ∧
      ∀ m, m < n → 1 ≤ count + bracketBal (cs.take m) := by
  induction cs with
  | nil => intro count n _ h; simp [scanLen] at h
  | cons c rest ih =>
    intro count n hc h
    have hbal : ∀ m, bracketBal ((c :: rest).take (m + 1)) =
        bDelta c + bracketBal (rest.take m) := by
      intro m; simp [List.take_succ_cons, bracketBal]
    simp only [scanLen] at h
    by_cases hob : c = '['
    · rw [if_pos hob] at h
      rcases hrec : scanLen rest (count + 1) with _ | k
      · rw [hrec] at h; exact absurd h (by simp)
      · rw [hrec] at h
        simp only [Option.some.injEq] at h
        subst h
        have ih' := ih (count + 1) k (by omega) hrec
        have hd : bDelta c = 1 := by simp [bDelta, hob]
        refine ⟨?_, ?_⟩
        · have h1 := ih'.1
          rw [hbal, hd]; omega
        · intro m hm
          match m, hm with
          | 0, _ => simpa [bracketBal] using hc
          | m' + 1, hm =>
            have h2 := ih'.2 m' (by omega)
            rw [hbal, hd]; omega
    · rw [if_neg hob] at h
      by_cases hcb : c = ']'
      · rw [if_pos hcb] at h
        have hd : bDelta c = -1 := by simp [bDelta, hob, hcb]
        by_cases hz : count - 1 = 0
        · rw [if_pos hz] at h
          simp only [Option.some.injEq] at h
          subst h
          refine ⟨?_, ?_⟩
          · rw [hbal, hd]; simp [bracketBal]; omega
          · intro m hm
            match m, hm with
            | 0, _ => simpa [bracketBal] using hc
        · rw [if_neg hz] at h
          rcases hrec : scanLen rest (count - 1) with _ | k
          · rw [hrec] at h; exact absurd h (by simp)
          · rw [hrec] at h
            simp only [Option.some.injEq] at h
            subst h
            have ih' := ih (count - 1) k (by omega) hrec
            refine ⟨?_, ?_⟩
            · have h1 := ih'.1
              rw [hbal, hd]; omega
            · intro m hm
              match m, hm with
              | 0, _ => simpa [bracketBal] using hc
              | m' + 1, hm =>
                have h2 := ih'.2 m' (by omega)
                rw [hbal, hd]; omega
      · rw [if_neg hcb] at h
        have hd : bDelta c = 0 := by simp [bDelta, hob, hcb]
        rcases hrec : scanLen rest count with _ | k
        · rw [hrec] at h; exact absurd h (by simp)
        · rw [hrec] at h
          simp only [Option.some.injEq] at h
          subst h
          have ih' := ih count k hc hrec
          refine ⟨?_, ?_⟩
          · have h1 := ih'.1
            rw [hbal, hd]; omega
          · intro m hm
            match m, hm with
            | 0, _ => simpa [bracketBal] using hc
            | m' + 1, hm =>
              have h2 := ih'.2 m' (by omega)
              rw [hbal, hd]; omega

theorem matchAnchorAt_head (cs t : List Char) (h : matchAnchorAt cs = some t) :
    ∃ r, t = '[' :: r := by
  unfold matchAnchorAt at h
  rcases hkw :
      (match matchLit "var".toList cs with
       | some r => some r
       | none =>
         match matchLit "const".toList cs with
         | some r => some r
         | none => matchLit "let".toList cs) with
    _ | r1
  · rw [hkw] at h; simp at h
  · rw [hkw] at h
    simp only at h
    by_cases hw : (r1.takeWhile pyWs).isEmpty
    · rw [if_pos hw] at h; simp at h
    · rw [if_neg hw] at h
      rcases hlit : matchLit "apiSchema".toList (r1.drop (r1.takeWhile pyWs).length)
        with _ | r2
      · rw [hlit] at h; simp at h
      · rw [hlit] at h
        simp only at h
        rcases hd : r2.dropWhile pyWs with _ | ⟨c3, r4⟩
        · rw [hd] at h; simp at h
        · rw [hd] at h
          by_cases hc3 : c3 = '='
          · subst hc3
            simp only at h
            rcases hd2 : r4.dropWhile pyWs with _ | ⟨c5, r5⟩
            · rw [hd2] at h; simp at h
            · rw [hd2] at h
              by_cases hc5 : c5 = '['
              · subst hc5
                simp only [Option.some.injEq] at h
                exact ⟨r5, h.symm⟩
              · split at h <;> simp_all
          · split at h <;> simp_all

theorem findAnchorTail_head (cs t : List Char) (h : findAnchorTail cs = some t) :
    ∃ r, t = '[' :: r := by
  induction cs with
  | nil => simp [findAnchorTail] at h
  | cons c rest ih =>
    unfold findAnchorTail at h
    rcases hm : matchAnchorAt (c :: rest) with _ | t'
    · rw [hm] at h; exact ih h
    · rw [hm] at h
      simp only [Option.some.injEq] at h
      subst h
      exact matchAnchorAt_head _ _ hm

/-- C1.  When the schema-array anchor is found (`findAnchorTail` yields the
suffix `t` starting at the anchor's opening bracket) and the bracket scan
succeeds (`scanLen t 0 = some n`, which is exactly the correctly-nested
case of lines 92-105), `extract_api_schema` selects exactly the prefix of
`t` of length `n`: the substring from the anchor's `[` to the first
position where the running bracket count returns to zero.  Nothing after
that closing bracket is included, and no shorter nonempty prefix is
bracket-balanced. -/
theorem extract_api_schema_selects_balanced_span
    (content t : List Char) (n : Nat)
    (hA : findAnchorTail content = some t)
    (hS : scanLen t 0 = some n) :
    extract_api_schema_span content = .ok (t.take n) ∧
    bracketBal (t.take n) = 0 ∧
    ∀ m, 0 < m → m < n → bracketBal (t.take m) ≠ 0 := by
  obtain ⟨r, rfl⟩ := findAnchorTail_head content t hA
  have h0 := hS
  have hstep : scanLen ('[' :: r) 0 =
      match scanLen r (0 + 1) with
      | some k => some (k + 1)
      | none => none := by
    simp [scanLen]
  rw [hstep] at h0
  rcases hrec : scanLen r (0 + 1) with _ | k
  · rw [hrec] at h0; exact absurd h0 (by simp)
  rw [hrec] at h0
  simp only [Option.some.injEq] at h0
  subst h0
  have hspec := scanLen_spec r (0 + 1) k (by omega) hrec
  refine ⟨?_, ?_, ?_⟩
  · simp [extract_api_schema_span, hA, hS]
  · have h1 := hspec.1
    simp [List.take_succ_cons, bracketBal, bDelta]
    omega
  · intro m hm hmn
    match m, hm with
    | m' + 1, _ =>
      have h2 := hspec.2 m' (by omega)
      simp [List.take_succ_cons, bracketBal, bDelta]
      omega

/-- Witness for C1 at a concrete input: the anchor is found, the scan stops
at the matching bracket of the top-level array, and the extracted span is
exactly `[[1],2]`, excluding the trailing `; x`. -/
theorem extract_api_schema_selects_balanced_span_witness :
    extract_api_schema_span ("var apiSchema = [[1],2]; x".toList) =
      .ok ("[[1],2]".toList) ∧
    bracketBal ("[[1],2]".toList) = 0 := by
  have h := extract_api_schema_selects_balanced_span
    ("var apiSchema = [[1],2]; x".toList) ("[[1],2]; x".toList) 7
    (by decide) (by decide)
  refine ⟨?_, ?_⟩
  · have := h.1
    simpa using this
  · have := h.2.1
    simpa using this

/-! ## General helper lemmas -/

theorem except_bind_ok {α β : Type} {e : Except String α} {f : α → Except String β} {b : β} :
    (e >>= f = .ok b) ↔ ∃ a, e = .ok a ∧ f a = .ok b := by
  cases e <;> simp [Bind.bind, Except.bind]

theorem except_pure_ok {α : Type} {a b : α} :
    ((pure a : Except String α) = .ok b) ↔ a = b := by
  simp [pure, Except.pure]

theorem lookupKV_assocSet_self (l : List (String × JValue)) (k : String) (v : JValue) :
    lookupKV (assocSet l k v) k = some v := by
  induction l with
  | nil => simp [assocSet, lookupKV]
  | cons kv rest ih =>
    obtain ⟨k', v'⟩ := kv
    by_cases h : k' = k
    · simp [assocSet, h, lookupKV]
    · simp [assocSet, h, lookupKV, ih]

theorem lookupKV_assocSet_ne (k k' : String) (v : JValue) (h : k' ≠ k) :
    ∀ l : List (String × JValue), lookupKV (assocSet l k' v) k = lookupKV l k := by
  intro l
  induction l with
  | nil => simp [assocSet, lookupKV, h]
  | cons kv rest ih =>
    obtain ⟨k'', v''⟩ := kv
    by_cases h2 : k'' = k'
    · subst h2
      simp [assocSet, lookupKV, h, fun hh : k'' = k => h (hh ▸ rfl)]
    · simp only [assocSet, if_neg h2]
      by_cases h3 : k'' = k
      · simp [lookupKV, h3]
      · simp [lookupKV, h3, ih]

theorem mem_assocSet (k : String) (v : JValue) (p : String × JValue) :
    ∀ l : List (String × JValue), p ∈ assocSet l k v → p ∈ l ∨ p = (k, v) := by
  intro l
  induction l with
  | nil =>
    intro h
    simp only [assocSet, List.mem_singleton] at h
    exact Or.inr h
  | cons kv rest ih =>
    obtain ⟨k', v'⟩ := kv
    intro h
    by_cases h2 : k' = k
    · simp only [assocSet, if_pos h2, List.mem_cons] at h
      rcases h with h | h
      · exact Or.inr h
      · exact Or.inl (List.mem_cons_of_mem _ h)
    · simp only [assocSet, if_neg h2, List.mem_cons] at h
      rcases h with h | h
      · exact Or.inl (by simp [h])
      · rcases ih h with h3 | h3
        · exact Or.inl (List.mem_cons_of_mem _ h3)
        · exact Or.inr h3

theorem lookupKV_mem (k : String) (v : JValue) :
    ∀ l : List (String × JValue), lookupKV l k = some v → (k, v) ∈ l := by
  intro l
  induction l with
  | nil => intro h; simp [lookupKV] at h
  | cons kv rest ih =>
    obtain ⟨k', v'⟩ := kv
    intro h
    by_cases h2 : k' = k
    · simp only [lookupKV, if_pos h2, Option.some.injEq] at h
      subst h2; subst h; exact List.mem_cons_self _ _
    · simp only [lookupKV, if_neg h2] at h
      exact List.mem_cons_of_mem _ (ih h)

mutual

theorem restore_nil (v : JValue) : restorePatterns [] v = v := by
  cases v with
  | obj kvs => simp [restorePatterns, restoreKvs_nil kvs]
  | arr xs => simp [restorePatterns, restoreList_nil xs]
  | str s => simp [restorePatterns, List.find?]
  | null => rfl
  | bool b => rfl
  | num t => rfl

theorem restoreList_nil (xs : List JValue) : restoreList [] xs = xs := by
  cases xs with
  | nil => rfl
  | cons x tl => simp [restoreList, restore_nil x, restoreList_nil tl]

theorem restoreKvs_nil (kvs : List (String × JValue)) : restoreKvs [] kvs = kvs := by
  cases kvs with
  | nil => rfl
  | cons kv tl =>
    obtain ⟨k, v⟩ := kv
    simp [restoreKvs, restore_nil v, restoreKvs_nil tl]

end

/-! ## C2: fallback tier ordering and the decode-failure path -/

/-- C2, counterexample.  At the concrete literal `[` the rewritten text
fails strict JSON decoding, yet `_parse_with_python_fallback` does not
raise: it returns normally (here with the structural scan's result `[]`),
because lines 187-188 catch `json.JSONDecodeError` and return
`_extract_basic_structure(schema_str)` directly, contradicting the claim
that the normalizer raises so that the structural-scanner tier of
`extract_api_schema` runs next. -/
theorem fallback_decode_failure_does_not_raise_cex :
    jsonParse (normalizeJs (replaceRegexAll "[".toList 0).1) = none ∧
    parse_with_python_fallback "[".toList = .ok [] := by
  constructor
  · rfl
  · rfl

/-- C2, amended.  The tiers are tried in the order external evaluator,
regex normalizer, structural scanner, and the first two tiers' exceptions
are swallowed; but when the normalizer's rewritten text fails strict JSON
decoding, the normalizer does not raise: it itself returns the structural
scan of the rewritten text (not of the original file content), and when
decoding succeeds the restored, wrapped value is returned. -/
theorem fallback_tier_order (vs : List JValue) (err : String) (ss content : List Char) :
    extract_api_schema_dispatch (.ok vs) ss content = vs ∧
    (jsonParse (normalizeJs (replaceRegexAll ss 0).1) = none →
      extract_api_schema_dispatch (.error err) ss content =
        extract_basic_structure (normalizeJs (replaceRegexAll ss 0).1)) ∧
    (∀ v, jsonParse (normalizeJs (replaceRegexAll ss 0).1) = some v →
      extract_api_schema_dispatch (.error err) ss content =
        pyWrap (restorePatterns (replaceRegexAll ss 0).2 v)) := by
  refine ⟨rfl, ?_, ?_⟩
  · intro h
    simp [extract_api_schema_dispatch, parse_with_python_fallback, h]
  · intro v h
    simp [extract_api_schema_dispatch, parse_with_python_fallback, h]

/-- Witness for the amended C2 at concrete inputs: with the external tier
failing and the literal `[` undecodable, the dispatch returns the
structural scan of the rewritten text. -/
theorem fallback_tier_order_witness :
    extract_api_schema_dispatch (.error "boom") "[".toList "x".toList =
      extract_basic_structure (normalizeJs (replaceRegexAll "[".toList 0).1) :=
  (fallback_tier_order [] "boom" "[".toList "x".toList).2.1 (by rfl)

/-! ## C3: the normalizer on inputs that are already strict JSON -/

/-- C3, counterexample.  The input `["/a/"]` is already strict JSON and
decodes to the one-element array containing the string `/a/`; but the
regex-normalizer fallback records `"/a/"` as a regex literal and restores
it with its surrounding double quotes into the decoded tree, producing the
string `"/a/"` (seven characters) instead — so its result differs from
direct JSON decoding. -/
theorem normalizer_differs_from_direct_decode_cex :
    jsonParse "[\"/a/\"]".toList = some (.arr [.str "/a/"]) ∧
    parse_with_python_fallback "[\"/a/\"]".toList = .ok [.str "\"/a/\""] ∧
    JValue.str "/a/" ≠ JValue.str "\"/a/\"" := by
  refine ⟨rfl, rfl, ?_⟩
  intro h
  injection h with h'
  exact absurd h' (by decide)

/-- C3, amended.  For an input on which no rewrite applies — no `"/…/"`
literal is extracted and the quote, trailing-comma and `undefined`
rewrites leave the text unchanged — a successful strict decode makes the
fallback return exactly the directly decoded value (as the array's
elements for an array literal, by the wrapping of lines 182-185). -/
theorem fallback_equals_direct_decode_when_rewrites_inert
    (cs : List Char) (v : JValue)
    (h1 : replaceRegexAll cs 0 = (cs, []))
    (h2 : normalizeJs cs = cs)
    (h3 : jsonParse cs = some v) :
    parse_with_python_fallback cs = .ok (pyWrap v) ∧
    (∀ xs, v = .arr xs → parse_with_python_fallback cs = .ok xs) := by
  have hmain : parse_with_python_fallback cs = .ok (pyWrap v) := by
    simp [parse_with_python_fallback, h1, h2, h3, restore_nil]
  refine ⟨hmain, ?_⟩
  intro xs hxs
  subst hxs
  simpa [pyWrap] using hmain

/-- Witness for the amended C3: `[1, true]` is untouched by every rewrite
and the fallback returns exactly its direct decode. -/
theorem fallback_equals_direct_decode_witness :
    parse_with_python_fallback "[1, true]".toList = .ok [.num "1", .bool true] :=
  (fallback_equals_direct_decode_when_rewrites_inert "[1, true]".toList
    (.arr [.num "1", .bool true]) (by rfl) (by rfl) (by rfl)).2
    [.num "1", .bool true] rfl

/-! ## C4: placeholder protection and exact restoration of regex literals -/

theorem digitsToNat_append_digit (a : List Char) (c : Char) :
    digitsToNat (a ++ [c]) = 10 * digitsToNat a + (c.toNat - 48) := by
  simp [digitsToNat, List.foldl_append]

theorem charDigit_toNat (d : Nat) (h : d < 10) : (Char.ofNat (48 + d)).toNat = 48 + d := by
  interval_cases d <;> rfl

theorem digitsToNat_natDecGo : ∀ fuel n, n < fuel → digitsToNat (natDecGo fuel n) = n := by
  intro fuel
  induction fuel with
  | zero => intro n h; omega
  | succ fuel ih =>
    intro n h
    by_cases h10 : n < 10
    · simp only [natDecGo, if_pos h10, digitsToNat, List.foldl]
      have := charDigit_toNat n h10
      omega
    · simp only [natDecGo, if_neg h10]
      rw [digitsToNat_append_digit]
      have hdiv : n / 10 < fuel := by omega
      rw [ih (n / 10) hdiv]
      have := charDigit_toNat (n % 10) (by omega)
      omega

theorem digitsToNat_natDec (n : Nat) : digitsToNat (natDec n) = n :=
  digitsToNat_natDecGo (n + 1) n (by omega)

theorem natDec_inj (a b : Nat) (h : natDec a = natDec b) : a = b := by
  have ha := digitsToNat_natDec a
  have hb := digitsToNat_natDec b
  rw [h] at ha
  omega

theorem natDecGo_chars : ∀ fuel n c, c ∈ natDecGo fuel n → 48 ≤ c.toNat ∧ c.toNat ≤ 57 := by
  intro fuel
  induction fuel with
  | zero => intro n c h; simp [natDecGo] at h
  | succ fuel ih =>
    intro n c h
    by_cases h10 : n < 10
    · simp only [natDecGo, if_pos h10, List.mem_singleton] at h
      subst h
      rw [charDigit_toNat n h10]
      omega
    · simp only [natDecGo, if_neg h10, List.mem_append, List.mem_singleton] at h
      rcases h with h | h
      · exact ih _ _ h
      · subst h
        rw [charDigit_toNat (n % 10) (by omega)]
        omega

theorem natDec_chars (n : Nat) (c : Char) (h : c ∈ natDec n) :
    48 ≤ c.toNat ∧ c.toNat ≤ 57 :=
  natDecGo_chars (n + 1) n c h

theorem phText_inj (a b : Nat) (h : phText a = phText b) : a = b := by
  unfold phText at h
  rw [List.append_assoc, List.append_assoc] at h
  have h1 := List.append_cancel_left h
  have h2 := List.append_cancel_right h1
  exact natDec_inj a b h2

theorem pyStripChar_wrap (ch : Char) (inner : List Char)
    (h1 : inner.head? ≠ some ch) (h2 : inner.getLast? ≠ some ch) (hne : inner ≠ []) :
    pyStripChar ch (ch :: (inner ++ [ch])) = inner := by
  obtain ⟨i0, itl, rfl⟩ := List.exists_cons_of_ne_nil hne
  have hi0 : (i0 == ch) = false := by
    simp only [List.head?_cons, ne_eq, Option.some.injEq] at h1
    simp [h1]
  obtain ⟨r0, rtl, hrs, hr0⟩ :
      ∃ r0 rtl, (i0 :: itl).reverse = r0 :: rtl ∧ (r0 == ch) = false := by
    rcases hrs : (i0 :: itl).reverse with _ | ⟨r0, rtl⟩
    · have := congrArg List.length hrs
      simp at this
    · refine ⟨r0, rtl, rfl, ?_⟩
      have hl : (i0 :: itl).getLast? = some r0 := by
        rw [← List.head?_reverse, hrs]; rfl
      rw [hl] at h2
      simp only [ne_eq, Option.some.injEq] at h2
      simp [h2]
  have hstep1 : List.dropWhile (fun c => c == ch) (ch :: ((i0 :: itl) ++ [ch])) =
      (i0 :: itl) ++ [ch] := by
    rw [List.dropWhile_cons]
    simp only [beq_self_eq_true, if_true]
    rw [List.cons_append, List.dropWhile_cons]
    simp [hi0]
  have hstep2 : List.dropWhile (fun c => c == ch) ((i0 :: itl) ++ [ch]).reverse =
      (i0 :: itl).reverse := by
    have hrev : ((i0 :: itl) ++ [ch]).reverse = ch :: (r0 :: rtl) := by
      rw [List.reverse_append, hrs]
      rfl
    rw [hrev, List.dropWhile_cons]
    simp only [beq_self_eq_true, if_true]
    rw [List.dropWhile_cons]
    simp [hr0, hrs]
  unfold pyStripChar
  rw [hstep1, hstep2, List.reverse_reverse]

theorem stripQuotes_phText (k : Nat) :
    pyStripChar '"' (phText k) =
      "__REGEX_PATTERN_".toList ++ natDec k ++ "__".toList := by
  have hshape : phText k =
      '"' :: (("__REGEX_PATTERN_".toList ++ natDec k ++ "__".toList) ++ ['"']) := by
    unfold phText
    have h1 : "\"__REGEX_PATTERN_".toList = '"' :: "__REGEX_PATTERN_".toList := rfl
    have h2 : "__\"".toList = "__".toList ++ ['"'] := rfl
    rw [h1, h2]
    simp
  rw [hshape]
  apply pyStripChar_wrap
  · intro hh
    simp only [List.append_assoc, List.head?_append] at hh
    simp at hh
  · intro hh
    have : ("__REGEX_PATTERN_".toList ++ natDec k ++ "__".toList).getLast? = some '_' := by
      have : "__REGEX_PATTERN_".toList ++ natDec k ++ "__".toList =
          ("__REGEX_PATTERN_".toList ++ natDec k ++ ['_']) ++ ['_'] := by simp
      rw [this, List.getLast?_concat]
    rw [this] at hh
    simp at hh
  · simp

theorem stripped_phText_inj (a b : Nat)
    (h : pyStripChar '"' (phText a) = pyStripChar '"' (phText b)) : a = b := by
  rw [stripQuotes_phText, stripQuotes_phText] at h
  rw [List.append_assoc, List.append_assoc] at h
  have h1 := List.append_cancel_left h
  have h2 := List.append_cancel_right h1
  exact natDec_inj a b h2

theorem takeWhile_append_own_drop (p : Char → Bool) :
    ∀ l : List Char, l.takeWhile p ++ l.drop (l.takeWhile p).length = l := by
  intro l
  induction l with
  | nil => rfl
  | cons c tl ih =>
    rw [List.takeWhile_cons]
    by_cases h : p c
    · simp only [if_pos h, List.length_cons, List.drop_succ_cons, List.cons_append]
      rw [ih]
    · simp [if_neg h]

theorem take_append_len (a : List Char) (t : List Char) (n : Nat) :
    (a ++ t).take (a.length + n) = a ++ t.take n := by
  induction a with
  | nil => simp
  | cons c tl ih => simp [List.take_succ_cons, Nat.succ_add, ih]

theorem regexLitLen_spec (cs : List Char) (L : Nat) (h : regexLitLen cs = some L) :
    ∃ mid, cs.take L = '"' :: '/' :: mid ++ ['"'] ∧ mid ≠ [] ∧
      mid.getLast? = some '/' ∧ L = mid.length + 3 := by
  rw [regexLitLen.eq_def] at h
  split at h
  · next rest =>
    split at h
    · next hdrop =>
      split at h
      · next hcond =>
        simp only [Option.some.injEq] at h
        subst h
        refine ⟨rest.takeWhile (fun c => !(c == '"')), ?_, hcond.1, hcond.2, rfl⟩
        have hsplit := takeWhile_append_own_drop (fun c => !(c == '"')) rest
        set mid := rest.takeWhile (fun c => !(c == '"')) with hmid
        have hh1 : ('"' :: '/' :: rest).take (mid.length + 3) =
            '"' :: '/' :: rest.take (mid.length + 1) := by
          have : mid.length + 3 = (mid.length + 1) + 1 + 1 := by omega
          rw [this]
          simp [List.take_succ_cons]
        rw [hh1]
        have hh2 : rest.take (mid.length + 1) = mid ++ (rest.drop mid.length).take 1 := by
          conv_lhs => rw [← hsplit]
          exact take_append_len mid _ 1
        rw [hh2, hdrop]
        simp
      · simp at h
    · simp at h
  · simp at h

theorem replaceRegexGo_pats : ∀ fuel (cs : List Char) (k : Nat)
    (pr : List Char × List Char), pr ∈ (replaceRegexGo fuel cs k).2 →
    (∃ j, k ≤ j ∧ pr.1 = phText j) ∧
    (∃ a b, cs = a ++ pr.2 ++ b) ∧
    (∃ mid, pr.2 = '"' :: '/' :: mid ++ ['"'] ∧ mid ≠ [] ∧ mid.getLast? = some '/') := by
  intro fuel
  induction fuel with
  | zero => intro cs k pr h; simp [replaceRegexGo] at h
  | succ fuel ih =>
    intro cs k pr h
    match cs with
    | [] => simp [replaceRegexGo] at h
    | c :: cs =>
      rcases hm : regexLitLen (c :: cs) with _ | L
      · simp only [replaceRegexGo, hm] at h
        obtain ⟨hj, ⟨a, b, hab⟩, hmid⟩ := ih cs k pr h
        exact ⟨hj, ⟨c :: a, b, by simp [hab]⟩, hmid⟩
      · match L with
        | 0 =>
          simp only [replaceRegexGo, hm] at h
          obtain ⟨hj, ⟨a, b, hab⟩, hmid⟩ := ih cs k pr h
          exact ⟨hj, ⟨c :: a, b, by simp [hab]⟩, hmid⟩
        | L + 1 =>
          simp only [replaceRegexGo, hm, List.mem_cons] at h
          rcases h with h | h
          · subst h
            obtain ⟨mid, htake, hne, hlast, hlen⟩ := regexLitLen_spec (c :: cs) (L + 1) hm
            refine ⟨⟨k, le_refl k, rfl⟩, ⟨[], (c :: cs).drop (L + 1), ?_⟩, mid, htake, hne, hlast⟩
            simp only [List.nil_append]
            exact (List.take_append_drop (L + 1) (c :: cs)).symm
          · obtain ⟨⟨j, hjk, hj⟩, ⟨a, b, hab⟩, hmid⟩ := ih _ _ pr h
            refine ⟨⟨j, by omega, hj⟩, ⟨(c :: cs).take (L + 1) ++ a, b, ?_⟩, hmid⟩
            conv_lhs => rw [← List.take_append_drop (L + 1) (c :: cs)]
            rw [hab]
            simp

theorem replaceRegexGo_nodup : ∀ fuel (cs : List Char) (k : Nat),
    ((replaceRegexGo fuel cs k).2.map Prod.fst).Nodup := by
  intro fuel
  induction fuel with
  | zero => intro cs k; simp [replaceRegexGo]
  | succ fuel ih =>
    intro cs k
    match cs with
    | [] => simp [replaceRegexGo]
    | c :: cs =>
      rcases hm : regexLitLen (c :: cs) with _ | L
      · simp only [replaceRegexGo, hm]; exact ih cs k
      · match L with
        | 0 => simp only [replaceRegexGo, hm]; exact ih cs k
        | L + 1 =>
          simp only [replaceRegexGo, hm, List.map_cons, List.nodup_cons]
          refine ⟨?_, ih _ _⟩
          intro hmem
          simp only [List.mem_map] at hmem
          obtain ⟨pr, hpr, hfst⟩ := hmem
          obtain ⟨⟨j, hjk, hj⟩, _, _⟩ := replaceRegexGo_pats fuel _ (k + 1) pr hpr
          rw [hj] at hfst
          have := phText_inj j k hfst
          omega

theorem find_first_unique {α : Type} (p : α → Bool) (a : α) :
    ∀ l : List α, a ∈ l → p a = true → (∀ b ∈ l, p b = true → b = a) →
      l.find? p = some a := by
  intro l
  induction l with
  | nil => intro h; simp at h
  | cons x tl ih =>
    intro hmem hpa huniq
    by_cases hx : p x = true
    · have hxa : x = a := huniq x (List.mem_cons_self x tl) hx
      subst hxa
      simp [List.find?_cons_of_pos _ hx]
    · have hxa : x ≠ a := fun he => hx (he ▸ hpa)
      have hmem' : a ∈ tl := by
        rcases List.mem_cons.mp hmem with h | h
        · exact absurd h.symm hxa
        · exact h
      rw [List.find?_cons_of_neg _ (by simpa using hx)]
      exact ih hmem' hpa (fun b hb hpb => huniq b (List.mem_cons_of_mem _ hb) hpb)

theorem pair_eq_of_nodup_keys :
    ∀ (pats : List (List Char × List Char)),
      (pats.map Prod.fst).Nodup →
      ∀ q pr : List Char × List Char, q ∈ pats → pr ∈ pats → q.1 = pr.1 → q = pr := by
  intro pats
  induction pats with
  | nil => intro _ q pr hq; simp at hq
  | cons x tl ih =>
    intro hnd q pr hq hpr heq
    simp only [List.map_cons, List.nodup_cons] at hnd
    rcases List.mem_cons.mp hq with hq1 | hq1 <;> rcases List.mem_cons.mp hpr with hp1 | hp1
    · rw [hq1, hp1]
    · exfalso
      apply hnd.1
      rw [← hq1, heq]
      exact List.mem_map.mpr ⟨pr, hp1, rfl⟩
    · exfalso
      apply hnd.1
      rw [← hp1, ← heq]
      exact List.mem_map.mpr ⟨q, hq1, rfl⟩
    · exact ih hnd.2 q pr hq1 hp1 heq

theorem restore_placeholder (pats : List (List Char × List Char))
    (hidx : ∀ pr ∈ pats, ∃ j, pr.1 = phText j)
    (hnd : (pats.map Prod.fst).Nodup)
    (pr : List Char × List Char) (hpr : pr ∈ pats) :
    restorePatterns pats (.str (String.mk (pyStripChar '"' pr.1))) =
      .str (String.mk pr.2) := by
  have hfind : pats.find?
      (fun q => String.mk (pyStripChar '"' q.1) == String.mk (pyStripChar '"' pr.1)) =
      some pr := by
    apply find_first_unique _ pr pats hpr
    · simp
    · intro q hq hpq
      simp only [beq_iff_eq] at hpq
      have hq1 : q.1 = pr.1 := by
        obtain ⟨j1, hj1⟩ := hidx q hq
        obtain ⟨j2, hj2⟩ := hidx pr hpr
        have : pyStripChar '"' q.1 = pyStripChar '"' pr.1 := by
          have := congrArg String.toList hpq
          simpa using this
        rw [hj1, hj2] at this
        rw [hj1, hj2, stripped_phText_inj j1 j2 this]
      exact pair_eq_of_nodup_keys pats hnd q pr hq hpr hq1
  simp only [restorePatterns, hfind]

/-- C4.  Regex-literal placeholder protection in
`_parse_with_python_fallback`: the placeholders recorded for the input are
pairwise distinct; every recorded original is an exact `"/…/"`-shaped
substring of the raw input (recorded before any quote rewriting, which
only ever sees the placeholder text); after a successful strict decode of
the rewritten text, restoration maps each placeholder string back to its
original literal text exactly, and the fallback's result is the restored
tree. -/
theorem regex_placeholders_unique_and_restored_exactly
    (cs cs' : List Char) (pats : List (List Char × List Char))
    (h : replaceRegexAll cs 0 = (cs', pats)) :
    (pats.map Prod.fst).Nodup ∧
    (∀ pr ∈ pats, (∃ a b, cs = a ++ pr.2 ++ b) ∧
      ∃ mid, pr.2 = '"' :: '/' :: mid ++ ['"'] ∧ mid ≠ [] ∧ mid.getLast? = some '/') ∧
    (∀ pr ∈ pats,
      restorePatterns pats (.str (String.mk (pyStripChar '"' pr.1))) =
        .str (String.mk pr.2)) ∧
    (∀ v, jsonParse (normalizeJs cs') = some v →
      parse_with_python_fallback cs = .ok (pyWrap (restorePatterns pats v))) := by
  have hpats : pats = (replaceRegexGo (cs.length + 1) cs 0).2 := by
    rw [show replaceRegexGo (cs.length + 1) cs 0 = (cs', pats) from h]
  refine ⟨?_, ?_, ?_, ?_⟩
  · rw [hpats]
    exact replaceRegexGo_nodup (cs.length + 1) cs 0
  · intro pr hpr
    rw [hpats] at hpr
    obtain ⟨_, hmidfact, hshape⟩ := replaceRegexGo_pats (cs.length + 1) cs 0 pr hpr
    exact ⟨hmidfact, hshape⟩
  · intro pr hpr
    apply restore_placeholder
    · intro q hq
      rw [hpats] at hq
      obtain ⟨⟨j, _, hj⟩, _, _⟩ := replaceRegexGo_pats (cs.length + 1) cs 0 q hq
      exact ⟨j, hj⟩
    · rw [hpats]
      exact replaceRegexGo_nodup (cs.length + 1) cs 0
    · exact hpr
  · intro v hv
    simp [parse_with_python_fallback, h, hv]

/-- Witness for C4 at the concrete input `["/a'b/"]` (the literal contains
an apostrophe): the placeholder text decodes in place of the literal and
restoration returns the original text `"/a'b/"` exactly, quotes and
apostrophe included. -/
theorem regex_placeholders_witness :
    jsonParse (normalizeJs (replaceRegexAll wRegexInput 0).1) =
      some (.arr [.str "__REGEX_PATTERN_0__"]) ∧
    restorePatterns (replaceRegexAll wRegexInput 0).2 (.str "__REGEX_PATTERN_0__") =
      .str (String.mk wRegexLit) ∧
    parse_with_python_fallback wRegexInput = .ok [.str (String.mk wRegexLit)] := by
  refine ⟨rfl, ?_, ?_⟩
  · have h := (regex_placeholders_unique_and_restored_exactly wRegexInput
      (replaceRegexAll wRegexInput 0).1 (replaceRegexAll wRegexInput 0).2 rfl).2.2.1
    have hm : (phText 0, wRegexLit) ∈ (replaceRegexAll wRegexInput 0).2 := by
      rw [show (replaceRegexAll wRegexInput 0).2 = [(phText 0, wRegexLit)] from rfl]
      exact List.mem_singleton.mpr rfl
    have := h (phText 0, wRegexLit) hm
    exact (by rfl :
      restorePatterns (replaceRegexAll wRegexInput 0).2 (.str "__REGEX_PATTERN_0__") =
        restorePatterns (replaceRegexAll wRegexInput 0).2
          (.str (String.mk (pyStripChar '"' (phText 0))))).trans this
  · have h := (regex_placeholders_unique_and_restored_exactly wRegexInput
      (replaceRegexAll wRegexInput 0).1 (replaceRegexAll wRegexInput 0).2 rfl).2.2.2
    have := h (.arr [.str "__REGEX_PATTERN_0__"]) rfl
    exact this.trans (by rfl)

/-! ## Operation-assembly lookup lemmas -/

theorem opBodyStep_lookup_ne (op0 : List (String × JValue)) (rb : Option JValue)
    (key : String) (h : key ≠ "requestBody") :
    lookupKV (opBodyStep op0 rb) key = lookupKV op0 key := by
  cases rb with
  | none => rfl
  | some b => exact lookupKV_assocSet_ne key "requestBody" b (Ne.symm h) op0

theorem opBodyStep_lookup_self (op0 : List (String × JValue)) (rb : Option JValue) :
    lookupKV (opBodyStep op0 rb) "requestBody" =
      (match rb with
       | some b => some b
       | none => lookupKV op0 "requestBody") := by
  cases rb with
  | none => rfl
  | some b => exact lookupKV_assocSet_self op0 "requestBody" b

theorem opParamsStep_lookup_ne (op1 : List (String × JValue)) (ps : List JValue)
    (key : String) (h : key ≠ "parameters") :
    lookupKV (opParamsStep op1 ps) key = lookupKV op1 key := by
  cases ps with
  | nil => rfl
  | cons p ptl => exact lookupKV_assocSet_ne key "parameters" _ (Ne.symm h) op1

theorem opParamsStep_lookup_self (op1 : List (String × JValue)) (ps : List JValue) :
    lookupKV (opParamsStep op1 ps) "parameters" =
      (match ps with
       | [] => lookupKV op1 "parameters"
       | _ => some (.arr ps)) := by
  cases ps with
  | nil => rfl
  | cons p ptl => exact lookupKV_assocSet_self op1 "parameters" _

theorem opSecStep_lookup_ne (op3 : List (String × JValue)) (sec : List JValue)
    (key : String) (h : key ≠ "security") :
    lookupKV (opSecStep op3 sec) key = lookupKV op3 key := by
  cases sec with
  | nil => rfl
  | cons s stl => exact lookupKV_assocSet_ne key "security" _ (Ne.symm h) op3

/-! ## Responses lemmas -/

theorem lookupKV_dictUpdate_not_key (key : String) :
    ∀ (upd base : List (String × JValue)), (∀ q ∈ upd, q.1 ≠ key) →
      lookupKV (dictUpdate base upd) key = lookupKV base key := by
  intro upd
  induction upd with
  | nil => intro base _; rfl
  | cons q rest ih =>
    intro base hq
    rw [show dictUpdate base (q :: rest) = dictUpdate (assocSet base q.1 q.2) rest from rfl]
    rw [ih _ (fun p hp => hq p (List.mem_cons_of_mem _ hp))]
    exact lookupKV_assocSet_ne key q.1 q.2 (hq q (List.mem_cons_self _ _)) base

theorem lookupKV_dictUpdate_mem (key : String) (v : JValue) :
    ∀ (upd base : List (String × JValue)), (upd.map Prod.fst).Nodup → (key, v) ∈ upd →
      lookupKV (dictUpdate base upd) key = some v := by
  intro upd
  induction upd with
  | nil => intro base _ h; simp at h
  | cons q rest ih =>
    intro base hnd hmem
    simp only [List.map_cons, List.nodup_cons] at hnd
    rw [show dictUpdate base (q :: rest) = dictUpdate (assocSet base q.1 q.2) rest from rfl]
    rcases List.mem_cons.mp hmem with h | h
    · have hq1 : q.1 = key := by rw [← h]
      have hrest : ∀ p ∈ rest, p.1 ≠ key := by
        intro p hp hpk
        apply hnd.1
        rw [hq1, ← hpk]
        exact List.mem_map.mpr ⟨p, hp, rfl⟩
      rw [lookupKV_dictUpdate_not_key key rest _ hrest]
      rw [← h]
      exact lookupKV_assocSet_self base key v
    · exact ih _ hnd.2 h

theorem std_error_keys_nodup : (std_error_responses.map Prod.fst).Nodup := by
  decide

theorem std_error_schema (c : String) (v : JValue) (h : (c, v) ∈ std_error_responses) :
    errSchemaOf v = some (sref "ProxmoxError") := by
  simp only [std_error_responses, List.mem_cons, List.not_mem_nil, or_false] at h
  rcases h with h | h | h | h | h | h | h <;>
    (simp only [Prod.mk.injEq] at h; rw [h.2]; rfl)

theorem build_responses_spec (cfg : APIConfig) (mi : List (String × JValue)) (resp : JValue)
    (h : _build_operation_responses cfg mi = .ok resp) :
    ∃ rkvs, resp = .obj rkvs ∧
      ∀ c v, (c, v) ∈ std_error_responses → lookupKV rkvs c = some v := by
  unfold _build_operation_responses at h
  simp only [except_bind_ok, except_pure_ok] at h
  obtain ⟨base, hbase, hpure⟩ := h
  refine ⟨dictUpdate base std_error_responses, hpure.symm, ?_⟩
  intro c v hcv
  exact lookupKV_dictUpdate_mem c v std_error_responses base std_error_keys_nodup hcv

/-! ## Operation construction lemmas -/

theorem buildQueryBody_spec (cfg : APIConfig) (ok : String → Bool) (m : String)
    (mi : List (String × JValue)) (pps : List String)
    (qb : List JValue × Option JValue)
    (h : buildQueryBody cfg ok m mi pps = .ok qb) :
    ((pyUpper m = "GET" ∨ pyUpper m = "DELETE") → qb.2 = none) ∧
    (¬(pyUpper m = "GET" ∨ pyUpper m = "DELETE") → qb.1 = []) := by
  unfold buildQueryBody at h
  split at h
  · next pv heq =>
    by_cases ht : pyTruthy pv = true
    · rw [if_pos ht] at h
      simp only [except_bind_ok] at h
      obtain ⟨ps, hps, h⟩ := h
      by_cases hgd : pyUpper m = "GET" ∨ pyUpper m = "DELETE"
      · rw [if_pos hgd] at h
        refine ⟨fun _ => ?_, fun hc => absurd hgd hc⟩
        split at h <;> (rw [except_pure_ok] at h; rw [← h])
      · rw [if_neg hgd] at h
        refine ⟨fun hc => absurd hc hgd, fun _ => ?_⟩
        split at h <;> (rw [except_pure_ok] at h; rw [← h])
    · rw [if_neg ht] at h
      rw [except_pure_ok] at h
      constructor <;> intro _ <;> rw [← h]
  · rw [except_pure_ok] at h
    constructor <;> intro _ <;> rw [← h]

theorem opAssemble_lookup_opId (base : List (String × JValue)) (rb : Option JValue)
    (params : List JValue) (resp : JValue) (sec : List JValue) :
    lookupKV (opAssemble base rb params resp sec) "operationId" =
      lookupKV base "operationId" := by
  unfold opAssemble
  rw [opSecStep_lookup_ne _ _ _ (by decide)]
  rw [lookupKV_assocSet_ne _ _ _ (by decide)]
  rw [opParamsStep_lookup_ne _ _ _ (by decide)]
  rw [opBodyStep_lookup_ne _ _ _ (by decide)]

theorem opAssemble_lookup_requestBody (base : List (String × JValue)) (rb : Option JValue)
    (params : List JValue) (resp : JValue) (sec : List JValue) :
    lookupKV (opAssemble base rb params resp sec) "requestBody" =
      (match rb with
       | some b => some b
       | none => lookupKV base "requestBody") := by
  unfold opAssemble
  rw [opSecStep_lookup_ne _ _ _ (by decide)]
  rw [lookupKV_assocSet_ne _ _ _ (by decide)]
  rw [opParamsStep_lookup_ne _ _ _ (by decide)]
  exact opBodyStep_lookup_self base rb

theorem opAssemble_lookup_parameters (base : List (String × JValue)) (rb : Option JValue)
    (params : List JValue) (resp : JValue) (sec : List JValue) :
    lookupKV (opAssemble base rb params resp sec) "parameters" =
      (match params with
       | [] => lookupKV (opBodyStep base rb) "parameters"
       | _ => some (.arr params)) := by
  unfold opAssemble
  rw [opSecStep_lookup_ne _ _ _ (by decide)]
  rw [lookupKV_assocSet_ne _ _ _ (by decide)]
  exact opParamsStep_lookup_self _ params

theorem opAssemble_lookup_responses (base : List (String × JValue)) (rb : Option JValue)
    (params : List JValue) (resp : JValue) (sec : List JValue) :
    lookupKV (opAssemble base rb params resp sec) "responses" = some resp := by
  unfold opAssemble
  rw [opSecStep_lookup_ne _ _ _ (by decide)]
  exact lookupKV_assocSet_self _ _ _

theorem opBase_lookup_opId (cfg : APIConfig) (m path : String)
    (mi : List (String × JValue)) :
    lookupKV (opBase cfg m path mi) "operationId" = some (.str (opIdOf m path)) := by
  simp [opBase, lookupKV]

theorem opBase_lookup_requestBody (cfg : APIConfig) (m path : String)
    (mi : List (String × JValue)) :
    lookupKV (opBase cfg m path mi) "requestBody" = none := by
  simp [opBase, lookupKV]

theorem opBase_lookup_parameters (cfg : APIConfig) (m path : String)
    (mi : List (String × JValue)) :
    lookupKV (opBase cfg m path mi) "parameters" = none := by
  simp [opBase, lookupKV]

theorem path_param_objs_in (cfg : APIConfig) (pps : List String) (q : JValue)
    (h : q ∈ _path_param_objs cfg pps) :
    ∃ qkvs, q = .obj qkvs ∧ lookupKV qkvs "in" = some (.str "path") := by
  simp only [_path_param_objs, List.mem_map] at h
  obtain ⟨p, hp, rfl⟩ := h
  exact ⟨_, rfl, by simp [lookupKV]⟩

theorem buildOp_spec (cfg : APIConfig) (ok : String → Bool) (ep : JValue) (m : String)
    (mi : List (String × JValue)) (op : JValue)
    (h : buildOp cfg ok ep m mi = .ok op) :
    ∃ okvs ekvs path,
      op = .obj okvs ∧ ep = .obj ekvs ∧
      lookupKV ekvs "path" = some (.str path) ∧
      lookupKV okvs "operationId" = some (.str (opIdOf m path)) ∧
      ((pyUpper m = "GET" ∨ pyUpper m = "DELETE") →
        lookupKV okvs "requestBody" = none) ∧
      (¬(pyUpper m = "GET" ∨ pyUpper m = "DELETE") →
        ∀ ps, lookupKV okvs "parameters" = some (.arr ps) →
          ∀ q ∈ ps, ∃ qkvs, q = .obj qkvs ∧ lookupKV qkvs "in" = some (.str "path")) ∧
      (∃ respKvs, lookupKV okvs "responses" = some (.obj respKvs) ∧
        ∀ c v, (c, v) ∈ std_error_responses →
          lookupKV respKvs c = some v ∧ errSchemaOf v = some (sref "ProxmoxError")) := by
  unfold buildOp at h
  simp only [except_bind_ok, except_pure_ok] at h
  obtain ⟨pathV, hpv, path, hpstr, qb, hqb, resp, hresp, hop⟩ := h
  obtain ⟨ekvs, hep, hlp⟩ : ∃ ekvs, ep = .obj ekvs ∧ lookupKV ekvs "path" = some pathV := by
    unfold epPathV at hpv
    split at hpv
    · next ekvs =>
      split at hpv
      · next v hv =>
        simp only [Except.ok.injEq] at hpv
        exact ⟨ekvs, rfl, by rw [hv, hpv]⟩
      · simp at hpv
    · simp at hpv
  have hpathstr : pathV = .str path := by
    unfold asPathStr at hpstr
    split at hpstr
    · next s =>
      simp only [Except.ok.injEq] at hpstr
      rw [hpstr]
    · simp at hpstr
  obtain ⟨hqb2, hqb1⟩ := buildQueryBody_spec cfg ok m mi (pathParamsOf path) qb hqb
  obtain ⟨respKvs, hrk, hrmem⟩ := build_responses_spec cfg mi resp hresp
  refine ⟨opAssemble (opBase cfg m path mi) qb.2
      (_path_param_objs cfg (pathParamsOf path) ++ qb.1) resp cfg.security_patterns,
    ekvs, path, hop.symm, hep, by rw [hlp, hpathstr], ?_, ?_, ?_, ?_⟩
  · rw [opAssemble_lookup_opId]
    exact opBase_lookup_opId cfg m path mi
  · intro hgd
    rw [opAssemble_lookup_requestBody, hqb2 hgd]
    exact opBase_lookup_requestBody cfg m path mi
  · intro hgd ps hps q hq
    rw [hqb1 hgd, List.append_nil] at hps
    rw [opAssemble_lookup_parameters] at hps
    rcases hpp : _path_param_objs cfg (pathParamsOf path) with _ | ⟨p0, ptl⟩ <;>
        rw [hpp] at hps
    · rw [opBodyStep_lookup_ne _ _ _ (by decide)] at hps
      rw [opBase_lookup_parameters] at hps
      cases hps
    · simp only [Option.some.injEq, JValue.arr.injEq] at hps
      apply path_param_objs_in cfg (pathParamsOf path) q
      rw [hpp, hps]
      exact hq
  · refine ⟨respKvs, ?_, ?_⟩
    · rw [opAssemble_lookup_responses, hrk]
    · intro c v hcv
      exact ⟨hrmem c v hcv, std_error_schema c v hcv⟩

/-! ## Path-item construction lemmas -/

theorem convert_methods_mem (cfg : APIConfig) (ok : String → Bool) (ep : JValue) :
    ∀ (mkvs acc pi : List (String × JValue)),
      convert_methods cfg ok ep mkvs acc = .ok pi →
      ∀ p ∈ pi, p ∈ acc ∨
        ∃ m mik, (m, JValue.obj mik) ∈ mkvs ∧ p.1 = pyLower m ∧
          buildOp cfg ok ep m mik = .ok p.2 := by
  intro mkvs
  induction mkvs with
  | nil =>
    intro acc pi h p hp
    simp only [convert_methods, Except.ok.injEq] at h
    subst h
    exact Or.inl hp
  | cons q rest ih =>
    intro acc pi h p hp
    obtain ⟨m, mi⟩ := q
    rcases mi with _ | b | t | sv | xs | mikvs
    case obj =>
      simp only [convert_methods, except_bind_ok] at h
      obtain ⟨op, hbo, hrec⟩ := h
      rcases ih (assocSet acc (pyLower m) op) pi hrec p hp with hin | ⟨m', mik', hmem, hk, hb⟩
      · rcases mem_assocSet (pyLower m) op p acc hin with h1 | h2
        · exact Or.inl h1
        · refine Or.inr ⟨m, mikvs, List.mem_cons_self _ _, ?_, ?_⟩
          · rw [h2]
          · rw [h2]; exact hbo
      · exact Or.inr ⟨m', mik', List.mem_cons_of_mem _ hmem, hk, hb⟩
    all_goals (
      simp only [convert_methods] at h
      rcases ih acc pi h p hp with hin | ⟨m', mik', hmem, hk, hb⟩
      · exact Or.inl hin
      · exact Or.inr ⟨m', mik', List.mem_cons_of_mem _ hmem, hk, hb⟩)

theorem convert_methods_lookup_stable (cfg : APIConfig) (ok : String → Bool) (ep : JValue)
    (key : String) :
    ∀ (mkvs acc pi : List (String × JValue)),
      convert_methods cfg ok ep mkvs acc = .ok pi →
      (∀ q ∈ mkvs, pyLower q.1 ≠ key) →
      lookupKV pi key = lookupKV acc key := by
  intro mkvs
  induction mkvs with
  | nil =>
    intro acc pi h _
    simp only [convert_methods, Except.ok.injEq] at h
    rw [← h]
  | cons q rest ih =>
    intro acc pi h hkeys
    obtain ⟨m, mi⟩ := q
    rcases mi with _ | b | t | sv | xs | mikvs
    case obj =>
      simp only [convert_methods, except_bind_ok] at h
      obtain ⟨op, hbo, hrec⟩ := h
      rw [ih _ pi hrec (fun q hq => hkeys q (List.mem_cons_of_mem _ hq))]
      exact lookupKV_assocSet_ne key (pyLower m) op
        (hkeys (m, .obj mikvs) (List.mem_cons_self _ _)) acc
    all_goals (
      simp only [convert_methods] at h
      exact ih acc pi h (fun q hq => hkeys q (List.mem_cons_of_mem _ hq)))

theorem convert_methods_lookup_found (cfg : APIConfig) (ok : String → Bool) (ep : JValue) :
    ∀ (mkvs acc pi : List (String × JValue)),
      (mkvs.map (fun q => pyLower q.1)).Nodup →
      convert_methods cfg ok ep mkvs acc = .ok pi →
      ∀ (m : String) (mi : JValue), (m, mi) ∈ mkvs →
        (mi.isObj = true → ∃ op, lookupKV pi (pyLower m) = some op) ∧
        (mi.isObj = false → lookupKV pi (pyLower m) = lookupKV acc (pyLower m)) := by
  intro mkvs
  induction mkvs with
  | nil =>
    intro acc pi _ h m mi hmem
    simp at hmem
  | cons q rest ih =>
    intro acc pi hnd h m mi hmem
    simp only [List.map_cons, List.nodup_cons] at hnd
    obtain ⟨mq, miq⟩ := q
    rcases List.mem_cons.mp hmem with he | he
    · obtain ⟨he1, he2⟩ := Prod.mk.injEq _ _ _ _ ▸ he
      subst he1
      subst he2
      have hrestne : ∀ p ∈ rest, pyLower p.1 ≠ pyLower m := by
        intro p hp hpk
        apply hnd.1
        rw [← hpk]
        exact List.mem_map.mpr ⟨p, hp, rfl⟩
      rcases mi with _ | b | t | sv | xs | mikvs
      case obj =>
        simp only [convert_methods, except_bind_ok] at h
        obtain ⟨op, hbo, hrec⟩ := h
        constructor
        · intro _
          refine ⟨op, ?_⟩
          rw [convert_methods_lookup_stable cfg ok ep (pyLower m) rest _ pi hrec hrestne]
          exact lookupKV_assocSet_self acc (pyLower m) op
        · intro habs
          simp [JValue.isObj] at habs
      all_goals (
        simp only [convert_methods] at h
        refine ⟨fun habs => ?_, fun _ => ?_⟩
        · simp [JValue.isObj] at habs
        · exact convert_methods_lookup_stable cfg ok ep (pyLower m) rest acc pi h hrestne)
    · have hnd1 : pyLower mq ∉ List.map (fun q => pyLower q.1) rest := hnd.1
      have hmne : pyLower m ≠ pyLower mq := by
        intro heq'
        apply hnd1
        rw [← heq']
        exact List.mem_map.mpr ⟨(m, mi), he, rfl⟩
      rcases miq with _ | b | t | sv | xs | mikvs
      case obj =>
        simp only [convert_methods, except_bind_ok] at h
        obtain ⟨op, hbo, hrec⟩ := h
        have hspec := ih (assocSet acc (pyLower mq) op) pi hnd.2 hrec m mi he
        refine ⟨hspec.1, fun hno => ?_⟩
        rw [hspec.2 hno]
        exact lookupKV_assocSet_ne (pyLower m) (pyLower mq) op (fun hc => hmne hc.symm) acc
      all_goals (
        simp only [convert_methods] at h
        exact ih acc pi hnd.2 h m mi he)

/-- Inversion of a successful per-verb lookup in an emitted path item:
the operation came from `buildOp` on some verb of the endpoint's method
map whose definition is a dict. -/
theorem pathItemField_op (cfg : APIConfig) (ok : String → Bool) (ep : JValue)
    (k : String) (op : JValue)
    (h : pathItemField (_convert_endpoint_to_openapi cfg ok ep) k = some op) :
    ∃ ekvs mkvs m mik, ep = .obj ekvs ∧
      lookupKV ekvs "methods" = some (.obj mkvs) ∧
      (m, JValue.obj mik) ∈ mkvs ∧ k = pyLower m ∧
      buildOp cfg ok ep m mik = .ok op := by
  unfold pathItemField at h
  rcases hconv : _convert_endpoint_to_openapi cfg ok ep with e | pv <;> rw [hconv] at h
  · simp at h
  · rcases pv with _ | b | t | sv | xs | pikvs
    case null => simp at h
    case bool => simp at h
    case num => simp at h
    case str => simp at h
    case arr => simp at h
    case obj =>
    have hmem := lookupKV_mem k op pikvs h
    have hc2 := hconv
    unfold _convert_endpoint_to_openapi at hc2
    simp only [except_bind_ok, except_pure_ok] at hc2
    obtain ⟨mkvs, hmk2, pi, hpi, hpv⟩ := hc2
    have hpieq : pi = pikvs := by
      injection hpv
    subst hpieq
    unfold epMethodItems at hmk2
    split at hmk2
    · next ekvs =>
      split at hmk2
      · next mk hvk =>
        simp only [Except.ok.injEq] at hmk2
        rw [← hmk2] at hpi
        rcases convert_methods_mem cfg ok (JValue.obj ekvs) mk [] pi hpi (k, op) hmem with
          hin | ⟨m, mik, hm, hk, hb⟩
        · simp at hin
        · exact ⟨ekvs, mk, m, mik, rfl, hvk, hm, hk, hb⟩
      · simp at hmk2
      · simp at hmk2
    · simp at hmk2

/-! ## Claim C5: parameter placement law -/

/-- C5: for every endpoint and every verb entry of its emitted path item,
if the verb is GET or DELETE the operation carries no request body (so no
declared non-path parameter reaches a request body), and for every other
verb every entry of the operation's `parameters` array is a path
parameter (so no declared non-path parameter becomes a query parameter). -/
theorem param_placement_law (cfg : APIConfig) (ok : String → Bool) (ep : JValue)
    (k : String) (op : JValue)
    (h : pathItemField (_convert_endpoint_to_openapi cfg ok ep) k = some op) :
    ∃ m okvs, k = pyLower m ∧ op = .obj okvs ∧
      ((pyUpper m = "GET" ∨ pyUpper m = "DELETE") →
        lookupKV okvs "requestBody" = none) ∧
      (¬(pyUpper m = "GET" ∨ pyUpper m = "DELETE") →
        ∀ ps, lookupKV okvs "parameters" = some (.arr ps) →
          ∀ q ∈ ps, ∃ qkvs, q = .obj qkvs ∧
            lookupKV qkvs "in" = some (.str "path")) := by
  obtain ⟨ekvs, mkvs, m, mik, hep, hmk, hmem, hk, hb⟩ :=
    pathItemField_op cfg ok ep k op h
  obtain ⟨okvs, ekvs2, path, hop, hep2, hlp, hoid, hrb, hqp, hresp⟩ :=
    buildOp_spec cfg ok ep m mik op hb
  exact ⟨m, okvs, hk, hop, hrb, hqp⟩

theorem param_placement_law_witness :
    pathItemField (_convert_endpoint_to_openapi wCfg wOk wEp) "get" = some wOpGet ∧
    (∃ m okvs, "get" = pyLower m ∧ wOpGet = .obj okvs ∧
      ((pyUpper m = "GET" ∨ pyUpper m = "DELETE") →
        lookupKV okvs "requestBody" = none) ∧
      (¬(pyUpper m = "GET" ∨ pyUpper m = "DELETE") →
        ∀ ps, lookupKV okvs "parameters" = some (.arr ps) →
          ∀ q ∈ ps, ∃ qkvs, q = .obj qkvs ∧
            lookupKV qkvs "in" = some (.str "path"))) :=
  ⟨rfl, param_placement_law wCfg wOk wEp "get" wOpGet rfl⟩

/-! ## Claim C7: operationId derivation -/

/-- C7 (amended): the emitted operationId is the deterministic function
`opIdOf` of the verb and the endpoint path alone — lower-cased verb joined
to the path with `/` turned into `_`, braces removed and outer `_`
stripped.  The original claim's uniqueness consequence is refuted by
`operation_id_collision_cex`: distinct paths may collide after separator
stripping. -/
theorem operation_id_from_verb_and_path (cfg : APIConfig) (ok : String → Bool)
    (ep : JValue) (k : String) (op : JValue)
    (h : pathItemField (_convert_endpoint_to_openapi cfg ok ep) k = some op) :
    ∃ m ekvs path okvs, k = pyLower m ∧ ep = .obj ekvs ∧
      lookupKV ekvs "path" = some (.str path) ∧ op = .obj okvs ∧
      lookupKV okvs "operationId" = some (.str (opIdOf m path)) := by
  obtain ⟨ekvs, mkvs, m, mik, hep, hmk, hmem, hk, hb⟩ :=
    pathItemField_op cfg ok ep k op h
  obtain ⟨okvs, ekvs2, path, hop, hep2, hlp, hoid, hrb, hqp, hresp⟩ :=
    buildOp_spec cfg ok ep m mik op hb
  exact ⟨m, ekvs2, path, okvs, hk, hep2, hlp, hop, hoid⟩

theorem operation_id_from_verb_and_path_witness :
    pathItemField (_convert_endpoint_to_openapi wCfg wOk wEp) "get" = some wOpGet ∧
    (∃ m ekvs path okvs, "get" = pyLower m ∧ wEp = .obj ekvs ∧
      lookupKV ekvs "path" = some (.str path) ∧ wOpGet = .obj okvs ∧
      lookupKV okvs "operationId" = some (.str (opIdOf m path))) :=
  ⟨rfl, operation_id_from_verb_and_path wCfg wOk wEp "get" wOpGet rfl⟩

/-- C7 (counterexample to the uniqueness consequence): the endpoints at
the distinct paths `/ab` and `/a\x7bb\x7d` both receive the operationId
`get_ab`, so uniqueness of operationIds does not follow from path
uniqueness. -/
theorem operation_id_collision_cex :
    ("/ab" : String) ≠ "/a\x7bb\x7d" ∧
    opIdOf "GET" "/ab" = opIdOf "GET" "/a\x7bb\x7d" ∧
    opField (_convert_endpoint_to_openapi wCfg wOk wEpA) "get" "operationId" =
      some (.str "get_ab") ∧
    opField (_convert_endpoint_to_openapi wCfg wOk wEpB) "get" "operationId" =
      some (.str "get_ab") :=
  ⟨by decide, rfl, rfl, rfl⟩

/-! ## Claim C9: uniform error responses -/

/-- C9: the fixed error-response table has exactly the codes 400, 401,
403, 404, 422, 500 and 503, and every emitted operation's `responses`
object contains each of its entries verbatim, each referencing the single
shared `ProxmoxError` schema. -/
theorem error_responses_uniform (cfg : APIConfig) (ok : String → Bool)
    (ep : JValue) (k : String) (op : JValue)
    (h : pathItemField (_convert_endpoint_to_openapi cfg ok ep) k = some op) :
    std_error_responses.map Prod.fst =
      ["400", "401", "403", "404", "422", "500", "503"] ∧
    ∃ okvs respKvs, op = .obj okvs ∧
      lookupKV okvs "responses" = some (.obj respKvs) ∧
      ∀ c v, (c, v) ∈ std_error_responses →
        lookupKV respKvs c = some v ∧
        errSchemaOf v = some (sref "ProxmoxError") := by
  obtain ⟨ekvs, mkvs, m, mik, hep, hmk, hmem, hk, hb⟩ :=
    pathItemField_op cfg ok ep k op h
  obtain ⟨okvs, ekvs2, path, hop, hep2, hlp, hoid, hrb, hqp, hresp⟩ :=
    buildOp_spec cfg ok ep m mik op hb
  obtain ⟨respKvs, hrk, hrmem⟩ := hresp
  exact ⟨rfl, okvs, respKvs, hop, hrk, hrmem⟩

theorem error_responses_uniform_witness :
    pathItemField (_convert_endpoint_to_openapi wCfg wOk wEp) "post" = some wOpPost ∧
    (std_error_responses.map Prod.fst =
      ["400", "401", "403", "404", "422", "500", "503"] ∧
    ∃ okvs respKvs, wOpPost = .obj okvs ∧
      lookupKV okvs "responses" = some (.obj respKvs) ∧
      ∀ c v, (c, v) ∈ std_error_responses →
        lookupKV respKvs c = some v ∧
        errSchemaOf v = some (sref "ProxmoxError")) :=
  ⟨rfl, error_responses_uniform wCfg wOk wEp "post" wOpPost rfl⟩

/-! ## Claim C10: non-dict method definitions are skipped -/

/-- C10: when conversion of an endpoint succeeds, the emitted path item
has an operation under the lower-cased verb for exactly those verb entries
of the method map whose definition is a dict; a verb whose definition is
not a dict is silently absent, and every key of the path item comes from
some dict-valued verb entry. -/
theorem non_dict_methods_skipped (cfg : APIConfig) (ok : String → Bool)
    (ekvs mkvs : List (String × JValue)) (pi : JValue)
    (hmk : lookupKV ekvs "methods" = some (.obj mkvs))
    (hnd : (mkvs.map (fun q => pyLower q.1)).Nodup)
    (hres : _convert_endpoint_to_openapi cfg ok (.obj ekvs) = .ok pi) :
    (∀ (m : String) (mi : JValue), (m, mi) ∈ mkvs →
      (mi.isObj = true →
        ∃ op, pathItemField (.ok pi) (pyLower m) = some op) ∧
      (mi.isObj = false → pathItemField (.ok pi) (pyLower m) = none)) ∧
    (∀ (k : String) (op : JValue), pathItemField (.ok pi) k = some op →
      ∃ m mik, (m, JValue.obj mik) ∈ mkvs ∧ k = pyLower m) := by
  have hres2 := hres
  unfold _convert_endpoint_to_openapi at hres2
  simp only [except_bind_ok, except_pure_ok] at hres2
  obtain ⟨mk0, hmk0, pikvs, hpi, hpv⟩ := hres2
  have hmk0e : epMethodItems (JValue.obj ekvs) = Except.ok mkvs := by
    simp only [epMethodItems, hmk]
  have hmk0' : mk0 = mkvs := by
    rw [hmk0] at hmk0e
    injection hmk0e
  rw [hmk0'] at hpi
  subst hpv
  constructor
  · intro m mi hmem
    have hf := convert_methods_lookup_found cfg ok (.obj ekvs) mkvs [] pikvs
      hnd hpi m mi hmem
    constructor
    · intro hobj
      obtain ⟨op, hop⟩ := hf.1 hobj
      exact ⟨op, hop⟩
    · intro hno
      have := hf.2 hno
      simpa [pathItemField, lookupKV] using this
  · intro k op hk
    have hmemp : (k, op) ∈ pikvs := lookupKV_mem k op pikvs hk
    rcases convert_methods_mem cfg ok (.obj ekvs) mkvs [] pikvs hpi (k, op) hmemp with
      hin | ⟨m, mik, hm, hkk, hb⟩
    · simp at hin
    · exact ⟨m, mik, hm, hkk⟩

theorem non_dict_methods_skipped_witness :
    lookupKV wEpKvs "methods" = some (.obj wMkvs) ∧
    (List.map (fun q => pyLower q.1) wMkvs).Nodup ∧
    _convert_endpoint_to_openapi wCfg wOk (.obj wEpKvs) = .ok wPathItem ∧
    ((∀ (m : String) (mi : JValue), (m, mi) ∈ wMkvs →
      (mi.isObj = true →
        ∃ op, pathItemField (.ok wPathItem) (pyLower m) = some op) ∧
      (mi.isObj = false → pathItemField (.ok wPathItem) (pyLower m) = none)) ∧
    (∀ (k : String) (op : JValue), pathItemField (.ok wPathItem) k = some op →
      ∃ m mik, (m, JValue.obj mik) ∈ wMkvs ∧ k = pyLower m)) :=
  ⟨rfl, by decide, rfl,
    non_dict_methods_skipped wCfg wOk wEpKvs wMkvs wPathItem rfl (by decide) rfl⟩

/-! ## Claim C6: scanner output is invisible to the flattener -/

theorem ebsEndpoint_shape (content p : List Char) (e : JValue)
    (h : ebsEndpoint content p = some e) :
    ∃ ps mv, e = .obj [("path", JValue.str ps), ("methods", mv)] := by
  simp only [ebsEndpoint] at h
  split at h
  · cases h
  · split at h
    · cases h
    · injection h with h2
      exact ⟨_, _, h2.symm⟩

theorem ebs_foldl_shape (content : List Char) :
    ∀ (paths : List (List Char)) (acc : List JValue),
      (∀ e ∈ acc, ∃ ps mv, e = .obj [("path", JValue.str ps), ("methods", mv)]) →
      ∀ e ∈ paths.foldl (fun acc2 q =>
          match ebsEndpoint content q with
          | some e2 => acc2 ++ [e2]
          | none => acc2) acc,
        ∃ ps mv, e = .obj [("path", JValue.str ps), ("methods", mv)] := by
  intro paths
  induction paths with
  | nil => intro acc hacc e he; exact hacc e he
  | cons p tl ih =>
    intro acc hacc e he
    rw [List.foldl_cons] at he
    refine ih _ ?_ e he
    intro e2 he2
    rcases hep : ebsEndpoint content p with _ | v <;> simp only [hep] at he2
    · exact hacc e2 he2
    · rcases List.mem_append.mp he2 with h1 | h2
      · exact hacc e2 h1
      · have hev : e2 = v := by simpa using h2
        subst hev
        exact ebsEndpoint_shape content p e2 hep

theorem flattenChildren_no_children :
    ∀ (kvs : List (String × JValue)) (cp : String),
      (∀ q ∈ kvs, q.1 ≠ "children") → flattenChildren kvs cp = .ok [] := by
  intro kvs
  induction kvs with
  | nil => intro cp _; rfl
  | cons q tl ih =>
    intro cp hq
    obtain ⟨k, v⟩ := q
    have hk : k ≠ "children" := hq (k, v) (List.mem_cons_self _ _)
    unfold flattenChildren
    rw [if_neg hk]
    exact ih cp (fun p hp => hq p (List.mem_cons_of_mem _ hp))

theorem flattenItem_basic (ps : String) (mv : JValue) (pp : String) :
    flattenItem (.obj [("path", JValue.str ps), ("methods", mv)]) pp = .ok [] := by
  have hfc := flattenChildren_no_children
    [("path", JValue.str ps), ("methods", mv)] (pp ++ ps) (by
      intro q hq
      rcases List.mem_cons.mp hq with h1 | h2
      · rw [h1]
        simp
      · rcases List.mem_cons.mp h2 with h3 | h4
        · rw [h3]
          simp
        · simp at h4)
  simp [flattenItem, lookupKV, methodKeyList, hfc]

theorem flatten_basic_list :
    ∀ (xs : List JValue) (pp : String),
      (∀ e ∈ xs, ∃ ps mv, e = .obj [("path", JValue.str ps), ("methods", mv)]) →
      flatten_api_endpoints xs pp = .ok [] := by
  intro xs
  induction xs with
  | nil => intro pp _; rfl
  | cons e tl ih =>
    intro pp hsh
    obtain ⟨ps, mv, he⟩ := hsh e (List.mem_cons_self _ _)
    subst he
    unfold flatten_api_endpoints
    rw [flattenItem_basic, ih pp (fun q hq => hsh q (List.mem_cons_of_mem _ hq))]
    rfl

theorem flatten_root (eps : List JValue) (pp : String)
    (hsh : ∀ e ∈ eps, ∃ ps mv, e = .obj [("path", JValue.str ps), ("methods", mv)]) :
    flatten_api_endpoints [JValue.obj [("children", JValue.arr eps),
      ("path", JValue.str "/"), ("text", JValue.str "root")]] pp = .ok [] := by
  have hfc : flattenChildren [("children", JValue.arr eps),
      ("path", JValue.str "/"), ("text", JValue.str "root")] (pp ++ "/") = .ok [] := by
    rcases eps with _ | ⟨e0, etl⟩
    · rfl
    · simp only [flattenChildren, if_pos rfl]
      rw [if_pos (by simp [pyTruthy])]
      exact flatten_basic_list (e0 :: etl) (pp ++ "/") hsh
  have hfi : flattenItem (JValue.obj [("children", JValue.arr eps),
      ("path", JValue.str "/"), ("text", JValue.str "root")]) pp = .ok [] := by
    simp [flattenItem, lookupKV, methodKeyList, hfc]
  unfold flatten_api_endpoints
  rw [hfi]
  rfl

/-- C6: whatever content the structural-scan last-resort tier is given,
flattening its synthetic tree yields no endpoint descriptors: the
scanner's nodes carry their verbs under a `methods` key, which the
flattener (looking for an `info` map or direct verb keys) never
recognizes. -/
theorem scanner_tree_flattens_to_nothing (content : List Char) (pp : String) :
    flatten_api_endpoints (extract_basic_structure content) pp = .ok [] := by
  simp only [extract_basic_structure]
  split
  · rfl
  · exact flatten_root _ pp
      (ebs_foldl_shape content (findAllCaps pathCapLen content) []
        (by intro e he; cases he))

/-! ## Claim C8: invalid patterns are dropped silently -/

theorem std_ref_no_pattern (cfg : APIConfig) (info : List (String × JValue))
    (r : List (String × JValue))
    (h : _get_standardized_schema_ref cfg info = .ok r) :
    lookupKV r "pattern" = none := by
  unfold _get_standardized_schema_ref at h
  dsimp only [] at h
  split at h
  · simp only [except_bind_ok, except_pure_ok, Except.ok.injEq] at h
    obtain ⟨y, hy, h2⟩ := h
    split at h2
    · rw [except_pure_ok] at h2
      rw [← h2]
      rfl
    · split at h2
      · next r0 heq =>
        rw [except_pure_ok] at h2
        rw [← h2]
        split at heq
        · split at heq
          · split at heq <;> (injection heq with he2; rw [← he2]; rfl)
          · cases heq
        · cases heq
      · split at h2
        · simp only [except_bind_ok, except_pure_ok, Except.ok.injEq] at h2
          obtain ⟨vm, hvm, h3⟩ := h2
          repeat (first | (rw [except_pure_ok] at h3; rw [← h3]; rfl) | split at h3)
        · simp only [except_bind_ok, except_pure_ok, Except.ok.injEq] at h2
          obtain ⟨vm, hvm, h3⟩ := h2
          repeat (first | (rw [except_pure_ok] at h3; rw [← h3]; rfl) | split at h3)
  · exact Except.noConfusion h

theorem ctto_no_pattern (cfg : APIConfig) (pbs_type : JValue)
    (fmt : Option JValue) (pinfo : Option (List (String × JValue)))
    (r : List (String × JValue))
    (h : _convert_type_to_openapi cfg pbs_type fmt pinfo = .ok r) :
    lookupKV r "pattern" = none := by
  unfold _convert_type_to_openapi at h
  dsimp only [] at h
  split at h
  · next info =>
    simp only [except_bind_ok, except_pure_ok, Except.ok.injEq] at h
    obtain ⟨r0, hr0, h2⟩ := h
    split at h2
    · rw [except_pure_ok] at h2
      rw [← h2]
      exact std_ref_no_pattern cfg info _ hr0
    · repeat
        first
        | (rw [except_pure_ok] at h2
           rw [← h2]
           rfl)
        | split at h2
  · simp only [except_bind_ok, except_pure_ok, Except.ok.injEq] at h
    obtain ⟨r0, hr0, h2⟩ := h
    rw [← hr0] at h2
    repeat
      first
      | (rw [except_pure_ok] at h2
         rw [← h2]
         rfl)
      | split at h2

theorem constr_pattern_stable (s info : List (String × JValue)) :
    lookupKV (_add_param_constraints s info) "pattern" = lookupKV s "pattern" := by
  have step : ∀ (acc : List (String × JValue)) (ck : String), ck ≠ "pattern" →
      lookupKV (match lookupKV info ck with
        | some v => assocSet acc ck v
        | none => acc) "pattern" = lookupKV acc "pattern" := by
    intro acc ck hck
    split
    · exact lookupKV_assocSet_ne "pattern" ck _ hck acc
    · rfl
  unfold _add_param_constraints
  simp only [List.foldl]
  rw [step _ "maximum" (by decide), step _ "minimum" (by decide),
    step _ "maxLength" (by decide), step _ "minLength" (by decide)]

theorem addDescription_pattern_stable (s info : List (String × JValue)) :
    lookupKV (addDescription s info) "pattern" = lookupKV s "pattern" := by
  unfold addDescription
  split
  · exact lookupKV_assocSet_ne "pattern" "description" _ (by decide) s
  · rfl

theorem addEnum_pattern_stable (s info : List (String × JValue)) :
    lookupKV (addEnum s info) "pattern" = lookupKV s "pattern" := by
  unfold addEnum
  split
  · exact lookupKV_assocSet_ne "pattern" "enum" _ (by decide) s
  · rfl

theorem addDefault_pattern_stable (s info : List (String × JValue)) :
    lookupKV (addDefault s info) "pattern" = lookupKV s "pattern" := by
  unfold addDefault
  split
  · exact lookupKV_assocSet_ne "pattern" "default" _ (by decide) s
  · rfl

theorem array_items_pattern_stable (cfg : APIConfig)
    (s info s5 : List (String × JValue))
    (h : _add_array_items cfg s info = .ok s5) :
    lookupKV s5 "pattern" = lookupKV s "pattern" := by
  unfold _add_array_items at h
  dsimp only [] at h
  split at h
  · split at h
    · simp only [except_bind_ok, except_pure_ok, Except.ok.injEq] at h
      obtain ⟨it, hit, h2⟩ := h
      rw [← h2]
      exact lookupKV_assocSet_ne "pattern" "items" _ (by decide) s
    · rw [except_pure_ok] at h
      rw [← h]
    · rw [except_pure_ok] at h
      rw [← h]
  · rw [except_pure_ok] at h
    rw [← h]

/-- C8: a declared pattern that fails to compile after delimiter
unwrapping is dropped: the pattern-adding step leaves the schema exactly
unchanged (it is total, so synthesis cannot raise there), and the schema
emitted by `_build_param_schema` carries no `pattern` field at all. -/
theorem invalid_pattern_dropped (cfg : APIConfig) (reOk : String → Bool)
    (name : String) (info : List (String × JValue)) (p : String)
    (s : List (String × JValue))
    (hp : lookupKV info "pattern" = some (.str p))
    (hbad : reOk (unwrapPattern p) = false)
    (hs : _build_param_schema cfg reOk name info = .ok s) :
    lookupKV s "pattern" = none ∧
    ∀ sch, _add_param_pattern reOk sch info = sch := by
  have hnopat : ∀ sch, _add_param_pattern reOk sch info = sch := by
    intro sch
    unfold _add_param_pattern
    rw [hp]
    show (if reOk (unwrapPattern p) = true then
      assocSet sch "pattern" (JValue.str (unwrapPattern p)) else sch) = sch
    rw [if_neg (by simp [hbad])]
  refine ⟨?_, hnopat⟩
  unfold _build_param_schema at hs
  simp only [except_bind_ok, except_pure_ok, Except.ok.injEq] at hs
  obtain ⟨s0, hs0, hrest⟩ := hs
  rw [array_items_pattern_stable cfg _ info s hrest, addDefault_pattern_stable,
    addEnum_pattern_stable, hnopat, constr_pattern_stable,
    addDescription_pattern_stable]
  exact ctto_no_pattern cfg _ _ _ s0 hs0

theorem invalid_pattern_dropped_witness :
    lookupKV wBadInfo "pattern" = some (.str "[") ∧
    wBadRe (unwrapPattern "[") = false ∧
    _build_param_schema wCfg wBadRe "p" wBadInfo = .ok [("type", JValue.str "string")] ∧
    (lookupKV [("type", JValue.str "string")] "pattern" = none ∧
      ∀ sch, _add_param_pattern wBadRe sch wBadInfo = sch) :=
  ⟨rfl, rfl, rfl,
    invalid_pattern_dropped wCfg wBadRe "p" wBadInfo "["
      [("type", JValue.str "string")] rfl rfl rfl⟩
